import Mathlib

/-!
Verification of the web-clipper content-normalization pipeline.

Python strings are modelled as `List Char` (sequences of Unicode scalar
values).  The Unicode-dependent character primitives used by the code
(`re \w`, `re \s`, `str.isalnum`, `str.lower`) are modelled faithfully on
the Latin-1 range (code points below 0x100); code points at or above
0x100 are conservatively treated as non-word, non-space, non-alphanumeric
and fixed by lowercasing.  File-system paths are modelled as lists of
path components; the file system itself as a map from paths to file
contents (absent file = empty contents).  Effectful collaborators
(clipboard, browser AppleScript query, network fetch, clock) are passed
in as explicit environment values, one value per call site outcome.
-/

namespace WebClipper

/-- Python `str.isalnum` for a single character, on the modelled
fragment: exact on the whole Latin-1 range (ASCII digits and letters,
the ordinal indicators, superscripts and fractions, micro sign, and the
accented letters 0xC0-0xFF minus the multiplication and division signs)
and on U+0130 (LATIN CAPITAL LETTER I WITH DOT ABOVE, alphanumeric) and
U+0307 (COMBINING DOT ABOVE, not alphanumeric), the two code points
above 0xFF that the theorems of this development exercise.  Other code
points at or above 0x100 are under-approximated as non-alphanumeric;
every theorem whose truth depends on the classification of a character
restricts that character to the exact part of the fragment. -/
def pyIsAlnum (c : Char) : Bool :=
  decide ((0x30 ≤ c.toNat ∧ c.toNat ≤ 0x39) ∨ (0x41 ≤ c.toNat ∧ c.toNat ≤ 0x5A) ∨
    (0x61 ≤ c.toNat ∧ c.toNat ≤ 0x7A) ∨
    c.toNat = 0xAA ∨ c.toNat = 0xB2 ∨ c.toNat = 0xB3 ∨ c.toNat = 0xB5 ∨
    c.toNat = 0xB9 ∨ c.toNat = 0xBA ∨ (0xBC ≤ c.toNat ∧ c.toNat ≤ 0xBE) ∨
    (0xC0 ≤ c.toNat ∧ c.toNat ≤ 0xFF ∧ c.toNat ≠ 0xD7 ∧ c.toNat ≠ 0xF7) ∨
    c.toNat = 0x130)

/-- Python regex `\w` (word character): alphanumeric or underscore. -/
def pyIsWord (c : Char) : Bool :=
  pyIsAlnum c || decide (c.toNat = 0x5F)

/-- Python regex `\s` / `str.isspace`, exact on all of Unicode: tab, LF,
VT, FF, CR, the separator controls 0x1C-0x1F, space, NEL, NBSP, OGHAM
SPACE MARK, the EN QUAD..HAIR SPACE block, LINE and PARAGRAPH SEPARATOR,
NARROW NO-BREAK SPACE, MEDIUM MATHEMATICAL SPACE and IDEOGRAPHIC SPACE. -/
def pyIsSpace (c : Char) : Bool :=
  decide ((9 ≤ c.toNat ∧ c.toNat ≤ 13) ∨ (28 ≤ c.toNat ∧ c.toNat ≤ 32) ∨
    c.toNat = 0x85 ∨ c.toNat = 0xA0 ∨ c.toNat = 0x1680 ∨
    (0x2000 ≤ c.toNat ∧ c.toNat ≤ 0x200A) ∨ c.toNat = 0x2028 ∨
    c.toNat = 0x2029 ∨ c.toNat = 0x202F ∨ c.toNat = 0x205F ∨ c.toNat = 0x3000)

/-- Characters that Python `str.lower` maps down by 32 in the Latin-1
range: ASCII uppercase letters and the accented uppercase letters
0xC0-0xDE minus the multiplication sign. -/
def pyUpper (c : Char) : Bool :=
  decide ((0x41 ≤ c.toNat ∧ c.toNat ≤ 0x5A) ∨
    (0xC0 ≤ c.toNat ∧ c.toNat ≤ 0xDE ∧ c.toNat ≠ 0xD7))

/-- the pointwise part of Python `str.lower`: exact on code points below
0x100 and on U+0307; code points at or above 0x100 are fixed (fragment —
in particular U+0130, whose real lowercase is two characters long, is
handled by `pyLowerBlock` instead). -/
def pyLower (c : Char) : Char :=
  if pyUpper c then Char.ofNat (c.toNat + 32) else c

/-- one character's contribution to Python `str.lower`: U+0130 has the
two-character full lowercase mapping `i` followed by U+0307 (COMBINING
DOT ABOVE); every other modelled character lowercases pointwise. -/
def pyLowerBlock (c : Char) : List Char :=
  if c.toNat = 0x130 then ['i', Char.ofNat 0x307] else [pyLower c]

/-- Python `str.lower` on a string: the concatenation of the
per-character lowercase mappings (a full case mapping, so the result can
be longer than the input). -/
def pyLowerStr (l : List Char) : List Char :=
  l.flatMap pyLowerBlock

/-- ASCII letter, as used by CPython's URL scheme check. -/
def asciiAlpha (c : Char) : Bool :=
  decide ((0x41 ≤ c.toNat ∧ c.toNat ≤ 0x5A) ∨ (0x61 ≤ c.toNat ∧ c.toNat ≤ 0x7A))

/-- Characters allowed in a URL scheme (CPython `scheme_chars`):
ASCII letters, digits, plus, hyphen, dot. -/
def schemeChar (c : Char) : Bool :=
  asciiAlpha c || decide ((0x30 ≤ c.toNat ∧ c.toNat ≤ 0x39) ∨
    c = '+' ∨ c = '-' ∨ c = '.')

/-- Python `s.strip(chars)`: drop characters satisfying `p` from both ends. -/
def stripWhile (p : Char → Bool) (l : List Char) : List Char :=
  ((l.dropWhile p).reverse.dropWhile p).reverse

/-- Python `s.strip()` with no argument: strip whitespace from both ends. -/
def pyStrip (l : List Char) : List Char :=
  stripWhile pyIsSpace l

/-- Python `s.split(sep)` for a single-character separator:
always returns at least one (possibly empty) piece. -/
def splitOnChar (sep : Char) : List Char → List (List Char)
  | [] => [[]]
  | c :: cs =>
    if c = sep then [] :: splitOnChar sep cs
    else
      match splitOnChar sep cs with
      | [] => [[c]]
      | l :: ls => (c :: l) :: ls

/-- Python `sep.join(pieces)` for a single-character separator. -/
def joinSep (sep : Char) : List (List Char) → List Char
  | [] => []
  | [l] => l
  | l :: ls => l ++ sep :: joinSep sep ls

/-- Split a text into its lines at newline characters (used to state the
separator-line counting property of clip files). -/
def splitNl : List Char → List (List Char)
  | [] => [[]]
  | c :: cs =>
    if c = '\n' then [] :: splitNl cs
    else
      match splitNl cs with
      | [] => [[c]]
      | l :: ls => (c :: l) :: ls

/-- Number of lines of a text that consist exactly of the record
separator `---`. -/
def sepLineCount (s : List Char) : Nat :=
  (splitNl s).countP fun l => decide (l = "---".data)

/-- Whether the text contains two adjacent hyphens. -/
def hasDoubleHyphen : List Char → Bool
  | [] => false
  | [_] => false
  | a :: b :: cs => (decide (a = '-') && decide (b = '-')) || hasDoubleHyphen (b :: cs)

/- ### storage.py: _sanitize_filename -/

/-- first regex substitution of `_sanitize_filename`:
`re.sub(r'[^\w\s-]', '-', name)` — replace every character that is not a
word character, whitespace, or hyphen by a hyphen. -/
def subNonWord (l : List Char) : List Char :=
  l.map fun c => if pyIsWord c || pyIsSpace c || decide (c = '-') then c else '-'

/-- second regex substitution of `_sanitize_filename`:
`re.sub(r'\s+', '-', name)` — replace each maximal run of whitespace by a
single hyphen.  The flag records whether the previous character was part
of a whitespace run. -/
def subSpaceAux : Bool → List Char → List Char
  | _, [] => []
  | prev, c :: cs =>
    if pyIsSpace c then
      if prev then subSpaceAux true cs else '-' :: subSpaceAux true cs
    else c :: subSpaceAux false cs

/-- third regex substitution of `_sanitize_filename`:
`re.sub(r'-+', '-', name)` — collapse each run of hyphens to one. -/
def subHyphenAux : Bool → List Char → List Char
  | _, [] => []
  | prev, c :: cs =>
    if c = '-' then
      if prev then subHyphenAux true cs else '-' :: subHyphenAux true cs
    else c :: subHyphenAux false cs

/-- `storage._sanitize_filename`: replace invalid characters with hyphens,
replace whitespace with hyphens, collapse repeated hyphens, strip
leading/trailing hyphens, lowercase. -/
def sanitize_filename (name : List Char) : List Char :=
  pyLowerStr (stripWhile (fun c => decide (c = '-'))
    (subHyphenAux false (subSpaceAux false (subNonWord name))))

/- ### urllib.parse: urlsplit / urlparse (the fragment used by storage.py) -/

/-- Result of CPython `urlsplit`/`urlparse`; the `params` component is
already merged out of `path` by `urlparsePy` below. -/
structure SplitResult where
  scheme : List Char
  netloc : List Char
  path : List Char
  query : List Char
  fragment : List Char
deriving DecidableEq

/-- Splits fragment (at the first `#`) and then query (at the first `?`
of the part before the fragment) off a URL remainder, returning
(path, query, fragment) — CPython `urlsplit` steps. -/
def splitFragQuery (s : List Char) : List Char × List Char × List Char :=
  let beforeFrag := s.takeWhile fun c => decide (c ≠ '#')
  let fragment := (s.dropWhile fun c => decide (c ≠ '#')).drop 1
  let path := beforeFrag.takeWhile fun c => decide (c ≠ '?')
  let query := (beforeFrag.dropWhile fun c => decide (c ≠ '?')).drop 1
  (path, query, fragment)

/-- input cleanup of CPython `urlsplit`: strip leading C0-control/space
characters, then remove every tab, CR and LF. -/
def urlRemoveUnsafe (url : List Char) : List Char :=
  (url.dropWhile fun c => decide (c.toNat ≤ 0x20)).filter
    fun c => decide (c ≠ '\t' ∧ c ≠ '\r' ∧ c ≠ '\n')

/-- scheme recognition of CPython `urlsplit`: if the text up to the first
`:` is non-empty, starts with an ASCII letter and continues with
`scheme_chars`, it is the (lowercased) scheme; the remainder follows the
colon.  Otherwise there is no scheme and the whole input remains. -/
def urlSchemeSplit (u1 : List Char) : List Char × List Char :=
  match u1.takeWhile fun c => decide (c ≠ ':'),
      decide ((u1.takeWhile fun c => decide (c ≠ ':')).length < u1.length) with
  | c :: cs, true =>
    if asciiAlpha c && cs.all schemeChar then
      ((c :: cs).map pyLower, u1.drop ((c :: cs).length + 1))
    else (([] : List Char), u1)
  | _, _ => (([] : List Char), u1)

/-- a character that does not end the netloc (CPython `_splitnetloc`
scans up to the first `/`, `?` or `#`). -/
def netlocChar (c : Char) : Bool :=
  decide (c ≠ '/' ∧ c ≠ '?' ∧ c ≠ '#')

/-- CPython `_checknetloc`: it returns normally for an empty or ASCII
netloc, and for a non-ASCII netloc it raises `ValueError` exactly when
NFKC normalization of the netloc (less `@:#?`) introduces one of
`/?#@:`.  No code point below 0x100 NFKC-normalizes to a string
containing any of those, so the check passes on the whole Latin-1
range; netlocs containing code points at or above 0x100 — for some of
which CPython raises, e.g. `℀` (U+2100), whose NFKC form is `a/c` —
are outside the modelled fragment and conservatively rejected. -/
def checknetlocOk (netloc : List Char) : Bool :=
  netloc.all fun c => decide (c.toNat < 0x100)

/-- netloc extraction and fragment/query splitting of CPython `urlsplit`
after the scheme is removed: when the remainder starts with `//`
(`url[:2] == '//'`), the netloc runs to the first `/`, `?` or `#`; an
unbalanced square bracket in it raises `ValueError("Invalid IPv6 URL")`,
and the netloc must then pass `_checknetloc` (see `checknetlocOk`). -/
def urlsplitAfterScheme (scheme rest : List Char) : Except (List Char) SplitResult :=
  if rest.take 2 = "//".data then
    if (decide ('[' ∈ (rest.drop 2).takeWhile netlocChar) !=
        decide (']' ∈ (rest.drop 2).takeWhile netlocChar)) then
      .error "Invalid IPv6 URL".data
    else if !checknetlocOk ((rest.drop 2).takeWhile netlocChar) then
      .error "netloc contains invalid characters under NFKC normalization".data
    else
      .ok ⟨scheme, (rest.drop 2).takeWhile netlocChar,
        (splitFragQuery ((rest.drop 2).dropWhile netlocChar)).1,
        (splitFragQuery ((rest.drop 2).dropWhile netlocChar)).2.1,
        (splitFragQuery ((rest.drop 2).dropWhile netlocChar)).2.2⟩
  else
    .ok ⟨scheme, [], (splitFragQuery rest).1, (splitFragQuery rest).2.1,
      (splitFragQuery rest).2.2⟩

/-- CPython `urllib.parse.urlsplit` (string input, fragments allowed):
input cleanup, scheme split, netloc split with the unbalanced-bracket
`ValueError` and the `_checknetloc` NFKC validation, then fragment/query
split.  The newer bracketed-host validation, which only turns further
inputs into errors, is outside the model. -/
def urlsplitPy (url : List Char) : Except (List Char) SplitResult :=
  urlsplitAfterScheme (urlSchemeSplit (urlRemoveUnsafe url)).1
    (urlSchemeSplit (urlRemoveUnsafe url)).2

/-- CPython `uses_params`: the schemes for which `urlparse` splits a
`;params` suffix off the last path segment. -/
def uses_params : List (List Char) :=
  [[], "ftp".data, "hdl".data, "prospero".data, "http".data, "imap".data,
   "https".data, "shttp".data, "rtsp".data, "rtspu".data, "sip".data,
   "sips".data, "mms".data, "sftp".data, "tel".data]

/-- CPython `_splitparams`, returning only the path part: if the path
contains a `/`, cut at the first `;` of the last segment (if any),
otherwise cut at the first `;` of the whole path. -/
def splitparams (p : List Char) : List Char :=
  if decide ('/' ∈ p) then
    let r := p.reverse
    let lastSeg := (r.takeWhile fun c => decide (c ≠ '/')).reverse
    let preRev := r.dropWhile fun c => decide (c ≠ '/')
    if decide (';' ∈ lastSeg) then preRev.reverse ++ lastSeg.takeWhile fun c => decide (c ≠ ';')
    else p
  else p.takeWhile fun c => decide (c ≠ ';')

/-- CPython `urllib.parse.urlparse`: `urlsplit` plus params splitting for
the schemes in `uses_params` when the path contains a `;`. -/
def urlparsePy (url : List Char) : Except (List Char) SplitResult :=
  match urlsplitPy url with
  | .error e => .error e
  | .ok r =>
    if decide (r.scheme ∈ uses_params) && decide (';' ∈ r.path) then
      .ok { r with path := splitparams r.path }
    else .ok r

/- ### config.py -/

/-- `config.ClipperConfig`.  `clips_directory` is a path given as a list
of components. -/
structure ClipperConfig where
  clips_directory : List (List Char)
  create_subdirs : Bool := true
  include_title : Bool := true
  include_timestamp : Bool := true
  timestamp_format : List Char := "%Y-%m-%d %H:%M:%S".data

/- ### storage.py: _get_file_path -/

/-- domain computation of `storage._get_file_path`:
`parsed.netloc or "unknown"`, then strip a leading `www.`. -/
def clipDomain (netloc : List Char) : List Char :=
  let d := if netloc = [] then "unknown".data else netloc
  if "www.".data <+: d then d.drop 4 else d

/-- filename computation of `storage._get_file_path`: strip slashes from
both ends of the URL path; if non-empty, replace `/` by `-`, sanitize and
append `.md` unless already present; otherwise `index.md`. -/
def clipFilename (urlPath : List Char) : List Char :=
  let p := stripWhile (fun c => decide (c = '/')) urlPath
  if p ≠ [] then
    let f := sanitize_filename (p.map fun c => if c = '/' then '-' else c)
    if ".md".data <:+ f then f else f ++ ".md".data
  else "index.md".data

/-- `storage._get_file_path`: legen the clip file path from the URL.
Returns the target path (as components) together with the list of
directories created by `mkdir` (the `parents=True, exist_ok=True` call of
the subdirectory branch).  Propagates the `ValueError` that `urlparse`
can raise. -/
def get_file_path (url : List Char) (config : ClipperConfig) :
    Except (List Char) (List (List Char) × List (List (List Char))) :=
  match urlparsePy url with
  | .error e => .error e
  | .ok parsed =>
    let domain := clipDomain parsed.netloc
    let filename := clipFilename parsed.path
    if config.create_subdirs then
      .ok (config.clips_directory ++ [domain, filename],
           [config.clips_directory ++ [domain]])
    else
      .ok (config.clips_directory ++ [domain ++ '_' :: filename], [])

/- ### storage.py: _format_clip / save_clip -/

/-- the `lines` list built by `storage._format_clip` before the final
`"\n".join`; `now` is the formatted timestamp (`datetime.now().strftime`
is a clock effect, its formatted value is passed in). -/
def format_clip_lines (content url : List Char) (title tags : Option (List Char))
    (config : ClipperConfig) (now : List Char) : List (List Char) :=
  let clip_title :=
    match title with
    | some t => if t ≠ [] then t else "Untitled".data
    | none => "Untitled".data
  let tagLines : List (List Char) :=
    match tags with
    | some ts =>
      if ts ≠ [] then
        let tag_list := (splitOnChar ',' ts).filterMap fun t =>
          if pyStrip t ≠ [] then some ('#' :: pyStrip t) else none
        if tag_list ≠ [] then ["- **Tags**: ".data ++ joinSep ' ' tag_list] else []
      else []
    | none => []
  ["---".data, "## Clip: ".data ++ clip_title, "- **URL**: ".data ++ url]
    ++ (if config.include_timestamp then ["- **Captured**: ".data ++ now] else [])
    ++ tagLines
    ++ [[], pyStrip content, [], "---".data, []]

/-- `storage._format_clip`: the joined markdown record text. -/
def format_clip (content url : List Char) (title tags : Option (List Char))
    (config : ClipperConfig) (now : List Char) : List Char :=
  joinSep '\n' (format_clip_lines content url title tags config now)

/-- the durable file store: path (as components) to file contents;
an absent file reads as empty contents. -/
def FileStore := List (List Char) → List Char

/-- `storage.save_clip`: resolve the target path, format the record, and
append it to the target file (opened in mode `"a"`, created if absent).
Returns the target path and the updated store.  Directory creation
(`ensure_clips_directory`, `mkdir`) does not change any file contents. -/
def save_clip (content url : List Char) (title tags : Option (List Char))
    (config : ClipperConfig) (now : List Char) (fs : FileStore) :
    Except (List Char) (List (List Char) × FileStore) :=
  match get_file_path url config with
  | .error e => .error e
  | .ok fp =>
    let clip_text := format_clip content url title tags config now
    .ok (fp.1, fun p => if p = fp.1 then fs p ++ clip_text else fs p)

/- ### html_processor.py: download_image extension choice -/

/-- Python `str.isalnum` on a string: non-empty and every character
alphanumeric. -/
def pyIsalnumStr (l : List Char) : Bool :=
  decide (l ≠ []) && l.all pyIsAlnum

/-- extension derivation of `html_processor.download_image` (lines 71-82)
from the path of the resolved image URL: take the final `/`-segment;
if it has no dot, use `.png`; otherwise take `'.' + segment.split('.')[-1]`
and fall back to `.png` when it is longer than 5 characters or its part
after the dot fails `str.isalnum`. -/
def download_image_ext (urlPath : List Char) : List Char :=
  let path_parts := splitOnChar '/' urlPath
  let filename := path_parts.getLastD "image".data
  if decide ('.' ∉ filename) then ".png".data
  else
    let ext := '.' :: (splitOnChar '.' filename).getLastD []
    if decide (5 < ext.length) || !pyIsalnumStr (ext.drop 1) then ".png".data
    else ext

/-- Modelled from the spec claim C8 (its words, most charitable reading):
the condition under which the extension "defaults to '.png'" — the final
segment contains no `.`, or the extracted extension (with its dot)
exceeds 5 characters, or the extension contains a non-alphanumeric
character. -/
def claimExtDefaults (urlPath : List Char) : Bool :=
  let filename := (splitOnChar '/' urlPath).getLastD "image".data
  let ext := (splitOnChar '.' filename).getLastD []
  decide ('.' ∉ filename) || decide (5 < ('.' :: ext).length) ||
    ext.any fun c => !pyIsAlnum c

/-- the amended trigger condition: additionally default when the
extracted extension is empty (Python `''.isalnum()` is false). -/
def amendedExtDefaults (urlPath : List Char) : Bool :=
  let filename := (splitOnChar '/' urlPath).getLastD "image".data
  let ext := (splitOnChar '.' filename).getLastD []
  decide ('.' ∉ filename) || decide (5 < ('.' :: ext).length) ||
    decide (ext = []) || ext.any fun c => !pyIsAlnum c

/-- the extension the final segment carries, with its dot. -/
def extractedExt (urlPath : List Char) : List Char :=
  '.' :: (splitOnChar '.' ((splitOnChar '/' urlPath).getLastD "image".data)).getLastD []

/- ### html_processor.py: process_html_images -/

/-- node of the parsed HTML document: an `img` element with an optional
`src` attribute, or any other content, which `process_html_images` never
touches. -/
inductive HNode where
  | img : Option (List Char) → HNode
  | other : List Char → HNode
deriving DecidableEq

/-- `html_processor.process_html_images`: walk the document; for each
`img` with a present, non-empty, non-`data:` `src`, attempt a download
(`fetch` is the outcome of `download_image`, returning the saved file
name); on success rewrite `src` to `./images/<name>` and count it, on
failure leave the element unchanged.  Returns the rewritten document,
the count of downloaded images and the list of `src` values for which a
download was attempted. -/
def process_html_images (fetch : List Char → Option (List Char)) :
    List HNode → List HNode × Nat × List (List Char)
  | [] => ([], 0, [])
  | n :: ns =>
    let rest := process_html_images fetch ns
    match n with
    | .other t => (.other t :: rest.1, rest.2.1, rest.2.2)
    | .img none => (.img none :: rest.1, rest.2.1, rest.2.2)
    | .img (some src) =>
      if src = [] then (.img (some src) :: rest.1, rest.2.1, rest.2.2)
      else if "data:".data <+: src then (.img (some src) :: rest.1, rest.2.1, rest.2.2)
      else
        match fetch src with
        | some name => (.img (some ("./images/".data ++ name)) :: rest.1,
                        rest.2.1 + 1, src :: rest.2.2)
        | none => (.img (some src) :: rest.1, rest.2.1, src :: rest.2.2)

/-- Modelled from the spec claim C5 (its words): the per-element rewrite —
a `data:` source is passed through unmodified; otherwise on download
success the source becomes `./images/<name>` and on failure the element
is unchanged. -/
def claimRewriteImg (fetch : List Char → Option (List Char)) (n : HNode) : HNode :=
  match n with
  | .img (some src) =>
    if src ≠ [] ∧ ¬ ("data:".data <+: src) then
      match fetch src with
      | some name => .img (some ("./images/".data ++ name))
      | none => n
    else n
  | _ => n

/-- whether a node is an image whose download is attempted and succeeds. -/
def imgFetchSuccess (fetch : List Char → Option (List Char)) (n : HNode) : Bool :=
  match n with
  | .img (some src) =>
    decide (src ≠ []) && !decide ("data:".data <+: src) && (fetch src).isSome
  | _ => false

/-- the `src` value a node submits for download, if any. -/
def imgFetchAttempt (n : HNode) : Option (List Char) :=
  match n with
  | .img (some src) =>
    if src ≠ [] ∧ ¬ ("data:".data <+: src) then some src else none
  | _ => none

/- ### clipper.py: clip -/

/-- `browser.BrowserContext`. -/
structure BrowserContext where
  url : List Char
  title : Option (List Char) := none
deriving DecidableEq

/-- the user-visible failures of `clip()`:
`NoClipboardContentError`, and the two `ClipperError` wraps (clipboard
read failure, save failure). -/
inductive ClipFailure where
  | noClipboardContent
  | clipboardReadError
  | saveError
deriving DecidableEq

/-- `clipper.ClipResult`. -/
structure ClipResult where
  file_path : List (List Char)
  url : List Char
  title : Option (List Char)
  content_length : Nat
deriving DecidableEq

/-- the argument tuple of a `save_clip` call made by `clip()`. -/
structure SaveArgs where
  content : List Char
  url : List Char
  title : Option (List Char)
  tags : Option (List Char)
deriving DecidableEq

/-- outcomes of the effectful collaborators during one `clip()`
invocation: the HTML clipboard read, the browser-context query (assumed
stable within the invocation), the `html_to_markdown` conversion as a
function of html and base URL (its network downloads happen inside),
the plain-text clipboard read (with its non-UTF-8 fallback folded in),
the direct-clipboard-image save (the saved file name, which
`save_clipboard_image` always places under `clips/images/`), and the
formatted current timestamp. -/
structure ClipEnv where
  html_clipboard : Option (List Char)
  browser : Except Unit BrowserContext
  convert : List Char → List Char → Except Unit (List Char × Nat)
  paste : Except Unit (List Char)
  clipboard_image : Option (List Char)
  now : List Char

/-- observable outcome of one `clip()` invocation: the returned value or
raised failure, how many times `get_browser_context` was called, the
`save_clip` calls made, and the resulting file store. -/
structure ClipOutcome where
  result : Except ClipFailure ClipResult
  ctxFetches : Nat
  saves : List SaveArgs
  fs : FileStore

/-- `images.get_markdown_image_link` for a file saved under
`clips/images/<name>` with alt text `clipboard_image`. -/
def markdown_image_link (name : List Char) : List Char :=
  "![clipboard_image](./images/".data ++ name ++ ")".data

/-- whether the clipboard HTML read produced a truthy value
(`if html_content:`). -/
def truthyHtml (env : ClipEnv) : Bool :=
  match env.html_clipboard with
  | some h => decide (h ≠ [])
  | none => false

/-- the base URL the HTML path passes to `html_to_markdown`: the browser
URL, or the fallback `https://example.com` when the context query fails. -/
def htmlBase (env : ClipEnv) : List Char :=
  match env.browser with
  | .ok c => c.url
  | .error _ => "https://example.com".data

/-- step 3b/4 of `clip()`: run `save_clip` under a browser context and
wrap the result, turning a save failure into `ClipperError`
(`"Failed to save clip"`).  `n` is the number of context fetches made. -/
def clipSave (env : ClipEnv) (tags : Option (List Char)) (config : ClipperConfig)
    (fs : FileStore) (content : List Char) (bc : BrowserContext) (n : Nat) :
    ClipOutcome :=
  match save_clip content bc.url bc.title tags config env.now fs with
  | .ok res =>
    ⟨.ok ⟨res.1, bc.url, bc.title, content.length⟩, n,
     [⟨content, bc.url, bc.title, tags⟩], res.2⟩
  | .error _ =>
    ⟨.error .saveError, n, [⟨content, bc.url, bc.title, tags⟩], fs⟩

/-- tail of `clip()` from the content-validation check on: raise
`NoClipboardContentError` on empty/whitespace-only content; otherwise
fetch the browser context if not already fetched (degrading to url
`unknown`, title `None` on `BrowserError`), then `save_clip`. -/
def clipFinish (env : ClipEnv) (tags : Option (List Char)) (config : ClipperConfig)
    (fs : FileStore) (content : List Char) (ctx : Option BrowserContext)
    (fetches : Nat) : ClipOutcome :=
  if pyStrip content = [] then ⟨.error .noClipboardContent, fetches, [], fs⟩
  else
    match ctx, env.browser with
    | some c, _ => clipSave env tags config fs content c fetches
    | none, .ok c => clipSave env tags config fs content c (fetches + 1)
    | none, .error _ =>
      clipSave env tags config fs content ⟨"unknown".data, none⟩ (fetches + 1)

/-- step 2 of `clip()` (the plain-text / direct-image path): read the
text clipboard, optionally save a direct clipboard image and splice its
markdown link after the trimmed text (or use the link alone), then
validate and save.  `fetches` counts context fetches already made. -/
def clipTextPath (env : ClipEnv) (tags : Option (List Char)) (config : ClipperConfig)
    (fs : FileStore) (fetches : Nat) : ClipOutcome :=
  match env.paste with
  | .error _ => ⟨.error .clipboardReadError, fetches, [], fs⟩
  | .ok text =>
    match env.clipboard_image with
    | some name =>
      let link := markdown_image_link name
      let content :=
        if pyStrip text ≠ [] then pyStrip text ++ '\n' :: '\n' :: link else link
      clipFinish env tags config fs content none fetches
    | none => clipFinish env tags config fs text none fetches

/-- `clipper.clip`: prefer clipboard HTML — fetch the browser context
first (falling back to `https://example.com` on `BrowserError`), convert
HTML to markdown; when conversion raises, discard the HTML and the
already-fetched context and fall through to the plain-text path;
when there is no (truthy) HTML go to the plain-text path directly. -/
def clip (env : ClipEnv) (tags : Option (List Char)) (config : ClipperConfig)
    (fs : FileStore) : ClipOutcome :=
  match env.html_clipboard with
  | some h =>
    if h ≠ [] then
      let bc : BrowserContext :=
        match env.browser with
        | .ok c => c
        | .error _ => ⟨"https://example.com".data, none⟩
      match env.convert h (htmlBase env) with
      | .ok conv => clipFinish env tags config fs conv.1 (some bc) 1
      | .error _ => clipTextPath env tags config fs 1
    else clipTextPath env tags config fs 0
  | none => clipTextPath env tags config fs 0

/-- character set the spec claims for sanitizer output: `[a-z0-9_-]`
(lowercase letters 0x61-0x7A, digits 0x30-0x39, underscore 0x5F,
hyphen 0x2D). -/
def claimSlugChar (c : Char) : Bool :=
  decide ((0x61 ≤ c.toNat ∧ c.toNat ≤ 0x7A) ∨ (0x30 ≤ c.toNat ∧ c.toNat ≤ 0x39) ∨
    c.toNat = 0x5F ∨ c.toNat = 0x2D)

/-- a concrete configuration used by concrete witnesses:
clips root `clips`, subdirectories on. -/
def demoConfig : ClipperConfig :=
  ⟨["clips".data], true, true, true, "%Y-%m-%d %H:%M:%S".data⟩

/-- a concrete configuration with `create_subdirs = false`. -/
def demoFlatConfig : ClipperConfig :=
  ⟨["clips".data], false, true, true, "%Y-%m-%d %H:%M:%S".data⟩

/-- environment: clipboard holds neither HTML nor non-whitespace text
nor an image; the browser is unreachable. -/
def demoEnvEmpty : ClipEnv :=
  ⟨none, .error (), fun _ _ => .error (), .ok "  ".data, none,
   "2024-01-01 00:00:00".data⟩

/-- environment: plain text `x` on the clipboard, browser unreachable. -/
def demoEnvText : ClipEnv :=
  ⟨none, .error (), fun _ _ => .error (), .ok "x".data, none,
   "2024-01-01 00:00:00".data⟩

/-- environment: HTML on the clipboard, browser unreachable, conversion
succeeds. -/
def demoEnvHtmlOk : ClipEnv :=
  ⟨some "<p>x</p>".data, .error (), fun _ _ => .ok ("x".data, 0), .ok [], none,
   "2024-01-01 00:00:00".data⟩

/-- environment: HTML on the clipboard, browser reachable, conversion
raises, plain text `x` available as fallback. -/
def demoEnvHtmlFail : ClipEnv :=
  ⟨some "<p>x</p>".data, .ok ⟨"https://e.com/x".data, none⟩,
   fun _ _ => .error (), .ok "x".data, none, "2024-01-01 00:00:00".data⟩

/-! ## Character-level lemmas -/

theorem char_toNat_ofNat (n : Nat) (h : n < 0xD800) : (Char.ofNat n).toNat = n := by
  have hv : n.isValidChar := Or.inl h
  rw [Char.ofNat, dif_pos hv]
  simp [Char.ofNatAux, Char.toNat, UInt32.toNat]

theorem char_eq_iff_toNat {a b : Char} : a = b ↔ a.toNat = b.toNat :=
  ⟨fun h => h ▸ rfl, fun h => Char.ext (UInt32.ext h)⟩

theorem pyUpper_bounds {c : Char} (h : pyUpper c = true) :
    0x41 ≤ c.toNat ∧ c.toNat ≤ 0xDE := by
  simp only [pyUpper, decide_eq_true_eq] at h
  omega

theorem pyLower_toNat_of_upper {c : Char} (h : pyUpper c = true) :
    (pyLower c).toNat = c.toNat + 32 := by
  have hb := pyUpper_bounds h
  rw [pyLower, if_pos h, char_toNat_ofNat]
  omega

theorem pyLower_eq_of_not_upper {c : Char} (h : pyUpper c = false) : pyLower c = c := by
  rw [pyLower, h]
  simp

theorem pyLower_hyphen_iff {c : Char} : pyLower c = '-' ↔ c = '-' := by
  constructor
  · intro h
    cases hu : pyUpper c with
    | true =>
      exfalso
      have h1 := pyLower_toNat_of_upper hu
      have h2 := pyUpper_bounds hu
      rw [h] at h1
      have : ('-' : Char).toNat = 45 := rfl
      omega
    | false => rwa [pyLower_eq_of_not_upper hu] at h
  · intro h
    subst h
    decide

theorem pyIsWord_pyLower {c : Char} (h : pyIsWord c = true) :
    pyIsWord (pyLower c) = true := by
  cases hu : pyUpper c with
  | true =>
    have h1 := pyLower_toNat_of_upper hu
    have h2 := pyUpper_bounds hu
    simp only [pyUpper, decide_eq_true_eq] at hu
    simp only [pyIsWord, pyIsAlnum, Bool.or_eq_true, decide_eq_true_eq] at h ⊢
    rw [h1]
    omega
  | false => rwa [pyLower_eq_of_not_upper hu]

theorem pyIsSpace_false_of_word {c : Char} (h : pyIsWord c = true) :
    pyIsSpace c = false := by
  simp only [pyIsWord, pyIsAlnum, Bool.or_eq_true, decide_eq_true_eq] at h
  simp only [pyIsSpace, decide_eq_false_iff_not]
  omega

theorem pyLower_idem (c : Char) : pyLower (pyLower c) = pyLower c := by
  cases hu : pyUpper c with
  | true =>
    have h1 := pyLower_toNat_of_upper hu
    have h2 := pyUpper_bounds hu
    simp only [pyUpper, decide_eq_true_eq] at hu
    apply pyLower_eq_of_not_upper
    simp only [pyUpper, decide_eq_false_iff_not]
    omega
  | false => rw [pyLower_eq_of_not_upper hu, pyLower_eq_of_not_upper hu]

theorem claimSlug_of_ascii_word {c : Char} (ha : c.toNat < 128) (hw : pyIsWord c = true) :
    claimSlugChar (pyLower c) = true := by
  cases hu : pyUpper c with
  | true =>
    have h1 := pyLower_toNat_of_upper hu
    have h2 := pyUpper_bounds hu
    simp only [pyUpper, decide_eq_true_eq] at hu
    simp only [claimSlugChar, decide_eq_true_eq]
    rw [h1]
    omega
  | false =>
    rw [pyLower_eq_of_not_upper hu]
    simp only [pyIsWord, pyIsAlnum, Bool.or_eq_true, decide_eq_true_eq] at hw
    simp only [pyUpper, decide_eq_false_iff_not] at hu
    simp only [claimSlugChar, decide_eq_true_eq]
    omega

/-! ## Sanitizer invariants -/

theorem mem_subNonWord {c : Char} {l : List Char} (h : c ∈ subNonWord l) :
    c = '-' ∨ (c ∈ l ∧ (pyIsWord c || pyIsSpace c || decide (c = '-')) = true) := by
  rcases List.mem_map.mp h with ⟨a, ha, rfl⟩
  by_cases hc : (pyIsWord a || pyIsSpace a || decide (a = '-')) = true
  · rw [if_pos hc]
    exact Or.inr ⟨ha, hc⟩
  · rw [if_neg hc]
    exact Or.inl rfl

theorem mem_subSpaceAux {c : Char} :
    ∀ (b : Bool) {l : List Char}, c ∈ subSpaceAux b l →
      c = '-' ∨ (c ∈ l ∧ pyIsSpace c = false) := by
  intro b l
  induction l generalizing b with
  | nil => intro h; simp [subSpaceAux] at h
  | cons a as ih =>
    intro h
    rw [subSpaceAux] at h
    by_cases hs : pyIsSpace a = true
    · rw [if_pos hs] at h
      have h' : c ∈ subSpaceAux true as ∨ c = '-' := by
        cases b with
        | true => simp only [if_pos rfl] at h; exact Or.inl h
        | false =>
          rw [if_neg Bool.false_ne_true] at h
          rcases List.mem_cons.mp h with h | h
          · exact Or.inr h
          · exact Or.inl h
      rcases h' with h' | h'
      · rcases ih true h' with h2 | ⟨h2, h3⟩
        · exact Or.inl h2
        · exact Or.inr ⟨List.mem_cons_of_mem a h2, h3⟩
      · exact Or.inl h'
    · rw [if_neg hs] at h
      rcases List.mem_cons.mp h with h | h
      · subst h
        exact Or.inr ⟨List.mem_cons_self c as, Bool.not_eq_true _ ▸ hs⟩
      · rcases ih false h with h2 | ⟨h2, h3⟩
        · exact Or.inl h2
        · exact Or.inr ⟨List.mem_cons_of_mem a h2, h3⟩

theorem mem_subHyphenAux {c : Char} :
    ∀ (b : Bool) {l : List Char}, c ∈ subHyphenAux b l → c = '-' ∨ c ∈ l := by
  intro b l
  induction l generalizing b with
  | nil => intro h; simp [subHyphenAux] at h
  | cons a as ih =>
    intro h
    rw [subHyphenAux] at h
    by_cases ha : a = '-'
    · rw [if_pos ha] at h
      have h' : c ∈ subHyphenAux true as ∨ c = '-' := by
        cases b with
        | true => simp only [if_pos rfl] at h; exact Or.inl h
        | false =>
          rw [if_neg Bool.false_ne_true] at h
          rcases List.mem_cons.mp h with h | h
          · exact Or.inr h
          · exact Or.inl h
      rcases h' with h' | h'
      · rcases ih true h' with h2 | h2
        · exact Or.inl h2
        · exact Or.inr (List.mem_cons_of_mem a h2)
      · exact Or.inl h'
    · rw [if_neg ha] at h
      rcases List.mem_cons.mp h with h | h
      · exact Or.inr (h ▸ List.mem_cons_self a as)
      · rcases ih false h with h2 | h2
        · exact Or.inl h2
        · exact Or.inr (List.mem_cons_of_mem a h2)

theorem mem_stripWhile {p : Char → Bool} {c : Char} {l : List Char}
    (h : c ∈ stripWhile p l) : c ∈ l := by
  unfold stripWhile at h
  rw [List.mem_reverse] at h
  have h1 : c ∈ (l.dropWhile p).reverse := List.Sublist.mem h (List.dropWhile_sublist p)
  rw [List.mem_reverse] at h1
  exact List.Sublist.mem h1 (List.dropWhile_sublist p)

theorem pyLowerBlock_ne_nil (c : Char) : pyLowerBlock c ≠ [] := by
  unfold pyLowerBlock
  split <;> simp

theorem pyLowerBlock_cases (c : Char) :
    (c.toNat = 0x130 ∧ pyLowerBlock c = ['i', Char.ofNat 0x307]) ∨
    (c.toNat ≠ 0x130 ∧ pyLowerBlock c = [pyLower c]) := by
  unfold pyLowerBlock
  by_cases h : c.toNat = 0x130
  · exact Or.inl ⟨h, by rw [if_pos h]⟩
  · exact Or.inr ⟨h, by rw [if_neg h]⟩

theorem pyLowerStr_cons (a : Char) (as : List Char) :
    pyLowerStr (a :: as) = pyLowerBlock a ++ pyLowerStr as := rfl

theorem pyLowerStr_eq_map {l : List Char} (h : ∀ c ∈ l, c.toNat ≠ 0x130) :
    pyLowerStr l = l.map pyLower := by
  induction l with
  | nil => rfl
  | cons a as ih =>
    unfold pyLowerStr at *
    rw [List.flatMap_cons, List.map_cons,
      ih (fun c hc => h c (List.mem_cons_of_mem a hc))]
    rcases pyLowerBlock_cases a with ⟨h1, _⟩ | ⟨_, h2⟩
    · exact absurd h1 (h a (List.mem_cons_self a as))
    · rw [h2]
      rfl

theorem pyLowerStr_ne_nil {l : List Char} (h : l ≠ []) : pyLowerStr l ≠ [] := by
  cases l with
  | nil => exact absurd rfl h
  | cons a as =>
    unfold pyLowerStr
    rw [List.flatMap_cons]
    intro hx
    exact pyLowerBlock_ne_nil a (List.append_eq_nil.mp hx).1

theorem pyLowerStr_head_ne {l : List Char} (h : ∀ c, l.head? = some c → c ≠ '-') :
    ∀ d, (pyLowerStr l).head? = some d → d ≠ '-' := by
  cases l with
  | nil => intro d hd; simp [pyLowerStr] at hd
  | cons a as =>
    intro d hd
    unfold pyLowerStr at hd
    rw [List.flatMap_cons,
      @List.head?_append_of_ne_nil Char (pyLowerBlock a) (as.flatMap pyLowerBlock)
        (pyLowerBlock_ne_nil a)] at hd
    have ha := h a rfl
    rcases pyLowerBlock_cases a with ⟨_, hb⟩ | ⟨_, hb⟩
    · rw [hb] at hd
      simp only [List.head?_cons, Option.some_inj] at hd
      rw [← hd]
      decide
    · rw [hb] at hd
      simp only [List.head?_cons, Option.some_inj] at hd
      rw [← hd]
      exact fun hc => ha (pyLower_hyphen_iff.mp hc)

theorem getLast?_append_right {A B : List Char} (h : B ≠ []) :
    (A ++ B).getLast? = B.getLast? := by
  rw [← List.head?_reverse, ← List.head?_reverse, List.reverse_append,
    List.head?_append_of_ne_nil _ (by simpa using h)]

theorem pyLowerStr_getLast_ne {l : List Char} (h : ∀ c, l.getLast? = some c → c ≠ '-') :
    ∀ d, (pyLowerStr l).getLast? = some d → d ≠ '-' := by
  induction l with
  | nil => intro d hd; simp [pyLowerStr] at hd
  | cons a as ih =>
    intro d hd
    cases has : as with
    | nil =>
      subst has
      unfold pyLowerStr at hd
      rw [List.flatMap_cons, List.flatMap_nil, List.append_nil] at hd
      have ha := h a rfl
      rcases pyLowerBlock_cases a with ⟨_, hb⟩ | ⟨_, hb⟩
      · rw [hb] at hd
        have he : (['i', Char.ofNat 0x307] : List Char).getLast? =
            some (Char.ofNat 0x307) := rfl
        rw [he, Option.some_inj] at hd
        rw [← hd]
        decide
      · rw [hb] at hd
        have he : ([pyLower a] : List Char).getLast? = some (pyLower a) := rfl
        rw [he, Option.some_inj] at hd
        rw [← hd]
        exact fun hc => ha (pyLower_hyphen_iff.mp hc)
    | cons b bs =>
      subst has
      rw [pyLowerStr_cons,
        getLast?_append_right (pyLowerStr_ne_nil (List.cons_ne_nil b bs))] at hd
      exact ih (fun c hc => h c (by rw [List.getLast?_cons_cons]; exact hc)) d hd

theorem mem_sanitize {c : Char} {s : List Char} (h : c ∈ sanitize_filename s) :
    c = '-' ∨ ∃ a, a ∈ s ∧ pyIsWord a = true ∧ c ∈ pyLowerBlock a := by
  unfold sanitize_filename at h
  rcases List.mem_flatMap.mp h with ⟨a, ha, hc⟩
  have hyph : c ∈ pyLowerBlock '-' → c = '-' := by
    intro hx
    have hbl : pyLowerBlock '-' = ['-'] := by decide
    rw [hbl] at hx
    simpa using hx
  have h1 := mem_stripWhile ha
  rcases mem_subHyphenAux false h1 with h2 | h2
  · exact Or.inl (hyph (h2 ▸ hc))
  · rcases mem_subSpaceAux false h2 with h3 | ⟨h3, hs⟩
    · exact Or.inl (hyph (h3 ▸ hc))
    · rcases mem_subNonWord h3 with h4 | ⟨h4, hcond⟩
      · exact Or.inl (hyph (h4 ▸ hc))
      · simp only [Bool.or_eq_true, decide_eq_true_eq] at hcond
        rcases hcond with (hw | hsp) | hh
        · exact Or.inr ⟨a, h4, hw, hc⟩
        · rw [hsp] at hs; exact absurd hs (by simp)
        · exact Or.inl (hyph (hh ▸ hc))

theorem sanitize_chars_latin1 {c : Char} {s : List Char}
    (hs : ∀ a ∈ s, a.toNat < 0x100) (h : c ∈ sanitize_filename s) :
    ((pyIsWord c = true ∧ pyLower c = c) ∨ c = '-') ∧ c.toNat < 0x100 := by
  rcases mem_sanitize h with rfl | ⟨a, haS, hw, hc⟩
  · exact ⟨Or.inr rfl, by decide⟩
  · have ha100 := hs a haS
    rcases pyLowerBlock_cases a with ⟨h130, _⟩ | ⟨_, hb⟩
    · omega
    · rw [hb] at hc
      have hce : c = pyLower a := by simpa using hc
      subst hce
      refine ⟨Or.inl ⟨pyIsWord_pyLower hw, pyLower_idem a⟩, ?_⟩
      cases hu : pyUpper a with
      | true =>
        have h1 := pyLower_toNat_of_upper hu
        have h2 := pyUpper_bounds hu
        omega
      | false =>
        rw [pyLower_eq_of_not_upper hu]
        omega

/-! ## hasDoubleHyphen lemmas -/

theorem hdh_iff {l : List Char} :
    hasDoubleHyphen l = true ↔ ∃ s t, l = s ++ '-' :: '-' :: t := by
  constructor
  · intro h
    induction l with
    | nil => simp [hasDoubleHyphen] at h
    | cons a l ih =>
      cases l with
      | nil => simp [hasDoubleHyphen] at h
      | cons b m =>
        rw [hasDoubleHyphen, Bool.or_eq_true] at h
        rcases h with h | h
        · rw [Bool.and_eq_true, decide_eq_true_eq, decide_eq_true_eq] at h
          exact ⟨[], m, by rw [h.1, h.2]; rfl⟩
        · rcases ih h with ⟨s, t, hst⟩
          exact ⟨a :: s, t, by rw [List.cons_append, hst]⟩
  · rintro ⟨s, t, rfl⟩
    induction s with
    | nil => simp [hasDoubleHyphen]
    | cons x s ih =>
      obtain ⟨b, m, hm⟩ : ∃ b m, s ++ '-' :: '-' :: t = b :: m := by
        cases s <;> exact ⟨_, _, rfl⟩
      rw [List.cons_append, hm, hasDoubleHyphen, Bool.or_eq_true]
      rw [hm] at ih
      exact Or.inr ih

theorem hdh_map_pyLower (l : List Char) :
    hasDoubleHyphen (l.map pyLower) = hasDoubleHyphen l := by
  induction l with
  | nil => rfl
  | cons a l ih =>
    cases l with
    | nil => rfl
    | cons b m =>
      simp only [List.map_cons] at ih ⊢
      rw [hasDoubleHyphen, hasDoubleHyphen, ih,
        show decide (pyLower a = '-') = decide (a = '-') from
          decide_eq_decide.mpr pyLower_hyphen_iff,
        show decide (pyLower b = '-') = decide (b = '-') from
          decide_eq_decide.mpr pyLower_hyphen_iff]

theorem hdh_cons_of {a : Char} {X : List Char} (h1 : hasDoubleHyphen X = false)
    (h2 : a = '-' → ∀ d, X.head? = some d → d ≠ '-') :
    hasDoubleHyphen (a :: X) = false := by
  cases X with
  | nil => rfl
  | cons d ds =>
    rw [hasDoubleHyphen]
    by_cases ha : a = '-'
    · have hd : d ≠ '-' := h2 ha d rfl
      simp [hd, h1]
    · simp [ha, h1]

theorem subHyphenAux_head {l : List Char} :
    ∀ c, (subHyphenAux true l).head? = some c → c ≠ '-' := by
  induction l with
  | nil => intro c h; simp [subHyphenAux] at h
  | cons a as ih =>
    intro c h
    by_cases ha : a = '-'
    · rw [subHyphenAux, if_pos ha, if_pos rfl] at h
      exact ih c h
    · rw [subHyphenAux, if_neg ha] at h
      simp only [List.head?_cons, Option.some_inj] at h
      exact h ▸ ha

theorem hdh_subHyphenAux (l : List Char) :
    ∀ b, hasDoubleHyphen (subHyphenAux b l) = false := by
  induction l with
  | nil => intro b; rfl
  | cons a as ih =>
    intro b
    by_cases ha : a = '-'
    · rw [subHyphenAux, if_pos ha]
      cases b with
      | true => rw [if_pos rfl]; exact ih true
      | false =>
        rw [if_neg Bool.false_ne_true]
        exact hdh_cons_of (ih true) (fun _ d hd => subHyphenAux_head d hd)
    · rw [subHyphenAux, if_neg ha]
      exact hdh_cons_of (ih false) (fun h => absurd h ha)

theorem stripWhile_decomp (p : Char → Bool) (l : List Char) :
    ∃ u v, l = u ++ stripWhile p l ++ v := by
  have h1 := List.takeWhile_append_dropWhile p l
  have h2 := congrArg List.reverse (List.takeWhile_append_dropWhile p (l.dropWhile p).reverse)
  rw [List.reverse_append, List.reverse_reverse] at h2
  refine ⟨l.takeWhile p, ((l.dropWhile p).reverse.takeWhile p).reverse, ?_⟩
  unfold stripWhile
  rw [List.append_assoc, h2, h1]

theorem hdh_false_of_decomp {l u v m : List Char} (h : hasDoubleHyphen l = false)
    (hd : l = u ++ m ++ v) : hasDoubleHyphen m = false := by
  by_contra hm
  rw [Bool.not_eq_false] at hm
  rcases hdh_iff.mp hm with ⟨s, t, rfl⟩
  have : l = (u ++ s) ++ '-' :: '-' :: (t ++ v) := by
    rw [hd]
    simp [List.append_assoc]
  rw [hdh_iff.mpr ⟨u ++ s, t ++ v, this⟩] at h
  exact absurd h (by simp)

theorem hdh_stripWhile {p : Char → Bool} {l : List Char}
    (h : hasDoubleHyphen l = false) : hasDoubleHyphen (stripWhile p l) = false := by
  rcases stripWhile_decomp p l with ⟨u, v, huv⟩
  exact hdh_false_of_decomp h huv

/-! ## edge-character lemmas -/

theorem dropWhile_head?_false {p : Char → Bool} {l : List Char} {c : Char}
    (h : (l.dropWhile p).head? = some c) : p c = false := by
  induction l with
  | nil => simp at h
  | cons a as ih =>
    by_cases pa : p a = true
    · rw [List.dropWhile_cons, if_pos pa] at h
      exact ih h
    · rw [List.dropWhile_cons, if_neg pa] at h
      simp only [List.head?_cons, Option.some_inj] at h
      rw [h] at pa
      exact Bool.not_eq_true _ ▸ pa

theorem stripWhile_head? {p : Char → Bool} {l : List Char} {c : Char}
    (h : (stripWhile p l).head? = some c) : p c = false := by
  have h2 := congrArg List.reverse (List.takeWhile_append_dropWhile p (l.dropWhile p).reverse)
  rw [List.reverse_append, List.reverse_reverse] at h2
  have hne : stripWhile p l ≠ [] := by
    intro hn
    rw [hn] at h
    simp at h
  have h3 := @List.head?_append_of_ne_nil Char (stripWhile p l)
    (((l.dropWhile p).reverse.takeWhile p).reverse) hne
  rw [show stripWhile p l ++ ((l.dropWhile p).reverse.takeWhile p).reverse = l.dropWhile p
      from h2] at h3
  rw [← h3] at h
  exact dropWhile_head?_false h

theorem stripWhile_getLast? {p : Char → Bool} {l : List Char} {c : Char}
    (h : (stripWhile p l).getLast? = some c) : p c = false := by
  unfold stripWhile at h
  rw [List.getLast?_reverse] at h
  exact dropWhile_head?_false h

theorem hdh_of_cons {a : Char} {as : List Char}
    (h : hasDoubleHyphen (a :: as) = false) : hasDoubleHyphen as = false := by
  cases as with
  | nil => rfl
  | cons b bs =>
    rw [hasDoubleHyphen, Bool.or_eq_false_iff] at h
    exact h.2

theorem hdh_cons_head {a : Char} {as : List Char}
    (h : hasDoubleHyphen (a :: as) = false) (ha : a = '-') :
    ∀ c, as.head? = some c → c ≠ '-' := by
  intro c hc hcontra
  cases as with
  | nil => simp at hc
  | cons b bs =>
    simp only [List.head?_cons, Option.some_inj] at hc
    rw [hasDoubleHyphen, Bool.or_eq_false_iff] at h
    have h1 := h.1
    rw [ha, hc, hcontra] at h1
    simp at h1

theorem hdh_pyLowerStr {l : List Char} (h : hasDoubleHyphen l = false) :
    hasDoubleHyphen (pyLowerStr l) = false := by
  induction l with
  | nil => rfl
  | cons a as ih =>
    have hrest := ih (hdh_of_cons h)
    unfold pyLowerStr at hrest ⊢
    rw [List.flatMap_cons]
    rcases pyLowerBlock_cases a with ⟨_, hb⟩ | ⟨_, hb⟩
    · rw [hb, List.cons_append, List.cons_append, List.nil_append]
      have h1 : hasDoubleHyphen (Char.ofNat 0x307 :: as.flatMap pyLowerBlock) = false :=
        hdh_cons_of hrest (fun hm => absurd hm (by decide))
      exact hdh_cons_of h1 (fun hi => absurd hi (by decide))
    · rw [hb, List.cons_append, List.nil_append]
      apply hdh_cons_of hrest
      intro hpl d hd
      exact pyLowerStr_head_ne (hdh_cons_head h (pyLower_hyphen_iff.mp hpl)) d hd

theorem sanitize_no_double (s : List Char) :
    hasDoubleHyphen (sanitize_filename s) = false := by
  unfold sanitize_filename
  exact hdh_pyLowerStr (hdh_stripWhile (hdh_subHyphenAux _ false))

theorem sanitize_head {s : List Char} {c : Char}
    (h : (sanitize_filename s).head? = some c) : c ≠ '-' := by
  unfold sanitize_filename at h
  refine pyLowerStr_head_ne (fun d hd => ?_) c h
  have hpd := stripWhile_head? hd
  rw [decide_eq_false_iff_not] at hpd
  exact hpd

theorem sanitize_getLast {s : List Char} {c : Char}
    (h : (sanitize_filename s).getLast? = some c) : c ≠ '-' := by
  unfold sanitize_filename at h
  refine pyLowerStr_getLast_ne (fun d hd => ?_) c h
  have hpd := stripWhile_getLast? hd
  rw [decide_eq_false_iff_not] at hpd
  exact hpd

/-! ## Fixed points of the sanitizer -/

theorem map_id_of {α : Type} {f : α → α} {l : List α} (h : ∀ c ∈ l, f c = c) :
    l.map f = l := by
  induction l with
  | nil => rfl
  | cons a as ih =>
    rw [List.map_cons, h a (List.mem_cons_self a as),
      ih (fun c hc => h c (List.mem_cons_of_mem a hc))]

theorem subNonWord_id {l : List Char}
    (h : ∀ c ∈ l, (pyIsWord c || pyIsSpace c || decide (c = '-')) = true) :
    subNonWord l = l := by
  unfold subNonWord
  apply map_id_of
  intro c hc
  rw [if_pos (h c hc)]

theorem subSpaceAux_id {l : List Char} (h : ∀ c ∈ l, pyIsSpace c = false) :
    ∀ b, subSpaceAux b l = l := by
  induction l with
  | nil => intro b; rfl
  | cons a as ih =>
    intro b
    rw [subSpaceAux, if_neg (by simp [h a (List.mem_cons_self a as)]),
      ih (fun c hc => h c (List.mem_cons_of_mem a hc)) false]

theorem subHyphenAux_id {l : List Char} (hd : hasDoubleHyphen l = false) :
    subHyphenAux false l = l ∧
      ((∀ c, l.head? = some c → c ≠ '-') → subHyphenAux true l = l) := by
  induction l with
  | nil => exact ⟨rfl, fun _ => rfl⟩
  | cons a as ih =>
    have ihs := ih (hdh_of_cons hd)
    constructor
    · by_cases ha : a = '-'
      · subst ha
        rw [subHyphenAux, if_pos rfl, if_neg Bool.false_ne_true]
        congr 1
        apply ihs.2
        intro c hc hcontra
        subst hcontra
        cases as with
        | nil => simp at hc
        | cons b bs =>
          simp only [List.head?_cons, Option.some_inj] at hc
          rw [hasDoubleHyphen, Bool.or_eq_false_iff] at hd
          have := hd.1
          rw [hc] at this
          simp at this
      · rw [subHyphenAux, if_neg ha, ihs.1]
    · intro hhead
      by_cases ha : a = '-'
      · exact absurd ha (hhead a rfl)
      · rw [subHyphenAux, if_neg ha, ihs.1]

theorem dropWhile_id_of_head {p : Char → Bool} {l : List Char}
    (h : ∀ c, l.head? = some c → p c = false) : l.dropWhile p = l := by
  cases l with
  | nil => rfl
  | cons a as => rw [List.dropWhile_cons, if_neg (by simp [h a rfl])]

theorem stripWhile_id {p : Char → Bool} {l : List Char}
    (h1 : ∀ c, l.head? = some c → p c = false)
    (h2 : ∀ c, l.getLast? = some c → p c = false) : stripWhile p l = l := by
  unfold stripWhile
  rw [dropWhile_id_of_head h1,
    dropWhile_id_of_head (fun c hc => h2 c (by rwa [List.head?_reverse] at hc))]
  exact List.reverse_reverse l

theorem sanitize_fixed {t : List Char}
    (hchars : ∀ c ∈ t, ((pyIsWord c = true ∧ pyLower c = c) ∨ c = '-') ∧ c.toNat < 0x100)
    (hdh : hasDoubleHyphen t = false)
    (hh : ∀ c, t.head? = some c → c ≠ '-')
    (hl : ∀ c, t.getLast? = some c → c ≠ '-') :
    sanitize_filename t = t := by
  have hcond : ∀ c ∈ t, (pyIsWord c || pyIsSpace c || decide (c = '-')) = true := by
    intro c hc
    rcases (hchars c hc).1 with ⟨hw, _⟩ | rfl
    · simp [hw]
    · simp
  have hspace : ∀ c ∈ t, pyIsSpace c = false := by
    intro c hc
    rcases (hchars c hc).1 with ⟨hw, _⟩ | rfl
    · exact pyIsSpace_false_of_word hw
    · decide
  have hfix : ∀ c ∈ t, pyLower c = c := by
    intro c hc
    rcases (hchars c hc).1 with ⟨_, hf⟩ | rfl
    · exact hf
    · decide
  have h130 : ∀ c ∈ t, c.toNat ≠ 0x130 := by
    intro c hc
    have := (hchars c hc).2
    omega
  have hne1 : ∀ c, t.head? = some c → decide (c = '-') = false :=
    fun c hc => decide_eq_false_iff_not.mpr (hh c hc)
  have hne2 : ∀ c, t.getLast? = some c → decide (c = '-') = false :=
    fun c hc => decide_eq_false_iff_not.mpr (hl c hc)
  unfold sanitize_filename
  rw [subNonWord_id hcond, subSpaceAux_id hspace false, (subHyphenAux_id hdh).1,
    stripWhile_id hne1 hne2, pyLowerStr_eq_map h130, map_id_of hfix]

/-! ## Claim C1 and C10 -/

/-- C1, amended: for every input, `_sanitize_filename` yields a string
with no leading or trailing hyphen and no `--` substring, and the empty
input yields the empty output; the `[a-z0-9_-]`-only alphabet guarantee
holds for ASCII inputs (a non-ASCII word character such as `é` passes
through lowercased, so the alphabet clause does not hold for arbitrary
Unicode input). -/
theorem sanitize_filename_guarantees (s : List Char) :
    hasDoubleHyphen (sanitize_filename s) = false ∧
    (∀ c, (sanitize_filename s).head? = some c → c ≠ '-') ∧
    (∀ c, (sanitize_filename s).getLast? = some c → c ≠ '-') ∧
    (s = [] → sanitize_filename s = []) ∧
    ((∀ c ∈ s, c.toNat < 128) → ∀ c ∈ sanitize_filename s, claimSlugChar c = true) := by
  refine ⟨sanitize_no_double s, fun c hc => sanitize_head hc,
    fun c hc => sanitize_getLast hc, fun h => by rw [h]; rfl, fun ha c hc => ?_⟩
  rcases mem_sanitize hc with rfl | ⟨a, haS, hw, hcb⟩
  · decide
  · have ha128 := ha a haS
    rcases pyLowerBlock_cases a with ⟨h130, _⟩ | ⟨_, hb⟩
    · omega
    · rw [hb] at hcb
      have hce : c = pyLower a := by simpa using hcb
      rw [hce]
      exact claimSlug_of_ascii_word ha128 hw

/-- C1, counterexample to the claim as stated: on the one-character
input `é` the sanitizer returns `é` itself (Python `\w` matches it and
`str.lower` fixes it), which is not in `[a-z0-9_-]`. -/
theorem sanitize_filename_claim_counterexample :
    ¬ (∀ c ∈ sanitize_filename "é".data, claimSlugChar c = true) := by decide

/-- witness for `sanitize_filename_guarantees`: the concrete ASCII input
`Hello World!` satisfies the ASCII hypothesis and the alphabet guarantee
follows; the sanitized value is `hello-world`. -/
theorem sanitize_filename_guarantees_witness :
    (∀ c ∈ ("Hello World!".data : List Char), c.toNat < 128) ∧
    (∀ c ∈ sanitize_filename "Hello World!".data, claimSlugChar c = true) ∧
    sanitize_filename "Hello World!".data = "hello-world".data :=
  ⟨by decide, (sanitize_filename_guarantees "Hello World!".data).2.2.2.2 (by decide),
    by decide⟩

/-- C10, amended: the sanitizer is idempotent on every input drawn from
the Latin-1 range — sanitizing an already sanitized Latin-1 name changes
nothing. The unrestricted claim is false: Python lowercases `İ` (U+0130)
to the two characters `i` + combining dot above (U+0307), and the
combining mark is not a `\w` character, so a second pass removes it. -/
theorem sanitize_filename_idem_latin1 (s : List Char)
    (hs : ∀ c ∈ s, c.toNat < 0x100) :
    sanitize_filename (sanitize_filename s) = sanitize_filename s := by
  apply sanitize_fixed
  · intro c hc
    exact sanitize_chars_latin1 hs hc
  · exact sanitize_no_double s
  · intro c hc
    exact sanitize_head hc
  · intro c hc
    exact sanitize_getLast hc

/-- C10, counterexample to the claim as stated: sanitizing the
one-character input `İ` yields `i` followed by U+0307, and sanitizing
that output again yields the different string `i`. -/
theorem sanitize_filename_not_idem :
    sanitize_filename (sanitize_filename "İ".data) ≠ sanitize_filename "İ".data := by
  decide

/-- witness for `sanitize_filename_idem_latin1`: the Latin-1 input
`Café Style` (sanitized value `café-style`) satisfies the hypothesis and
re-sanitizing its sanitized form changes nothing. -/
theorem sanitize_filename_idem_latin1_witness :
    sanitize_filename (sanitize_filename "Café Style".data) =
      sanitize_filename "Café Style".data :=
  sanitize_filename_idem_latin1 "Café Style".data (by decide)

/-! ## URL parsing and path resolution (claims C2, C3) -/

theorem mem_urlSchemeSplit_snd {u1 : List Char} {c : Char}
    (h : c ∈ (urlSchemeSplit u1).2) : c ∈ u1 := by
  unfold urlSchemeSplit at h
  generalize hpre : u1.takeWhile (fun c => decide (c ≠ ':')) = pre at h
  cases pre with
  | nil => exact h
  | cons a cs =>
    cases hdec : decide ((a :: cs).length < u1.length) with
    | false => rw [hdec] at h; exact h
    | true =>
      rw [hdec] at h
      dsimp only at h
      by_cases hb : (asciiAlpha a && cs.all schemeChar) = true
      · rw [if_pos hb] at h
        exact List.Sublist.mem h (List.drop_sublist _ _)
      · rw [if_neg hb] at h
        exact h

theorem mem_urlRemoveUnsafe {url : List Char} {c : Char}
    (h : c ∈ urlRemoveUnsafe url) : c ∈ url := by
  unfold urlRemoveUnsafe at h
  have h1 := List.Sublist.mem h (List.filter_sublist _)
  exact List.Sublist.mem h1 (List.dropWhile_sublist _)

theorem urlsplitAfterScheme_ok {s r : List Char} (h1 : '[' ∉ r) (h2 : ']' ∉ r)
    (h3 : ∀ c ∈ r, c.toNat < 0x80) :
    (urlsplitAfterScheme s r).isOk = true := by
  unfold urlsplitAfterScheme
  by_cases ht : r.take 2 = "//".data
  · rw [if_pos ht]
    have hn1 : '[' ∉ (r.drop 2).takeWhile netlocChar := fun hm =>
      h1 (List.Sublist.mem (List.Sublist.mem hm (List.takeWhile_sublist _))
        (List.drop_sublist _ _))
    have hn2 : ']' ∉ (r.drop 2).takeWhile netlocChar := fun hm =>
      h2 (List.Sublist.mem (List.Sublist.mem hm (List.takeWhile_sublist _))
        (List.drop_sublist _ _))
    rw [if_neg (by rw [decide_eq_false hn1, decide_eq_false hn2]; simp)]
    have hnl : checknetlocOk ((r.drop 2).takeWhile netlocChar) = true := by
      unfold checknetlocOk
      rw [List.all_eq_true]
      intro c hcm
      have hcr : c ∈ r := List.Sublist.mem (List.Sublist.mem hcm
        (List.takeWhile_sublist _)) (List.drop_sublist _ _)
      have hlt := h3 c hcr
      simp only [decide_eq_true_eq]
      omega
    rw [if_neg (by rw [hnl]; simp)]
    rfl
  · rw [if_neg ht]
    rfl

theorem urlsplitPy_ok {url : List Char} (h1 : '[' ∉ url) (h2 : ']' ∉ url)
    (h3 : ∀ c ∈ url, c.toNat < 0x80) :
    (urlsplitPy url).isOk = true := by
  unfold urlsplitPy
  exact urlsplitAfterScheme_ok
    (fun hm => h1 (mem_urlRemoveUnsafe (mem_urlSchemeSplit_snd hm)))
    (fun hm => h2 (mem_urlRemoveUnsafe (mem_urlSchemeSplit_snd hm)))
    (fun c hm => h3 c (mem_urlRemoveUnsafe (mem_urlSchemeSplit_snd hm)))

theorem urlparsePy_ok {url : List Char} (h1 : '[' ∉ url) (h2 : ']' ∉ url)
    (h3 : ∀ c ∈ url, c.toNat < 0x80) :
    (urlparsePy url).isOk = true := by
  unfold urlparsePy
  cases hs : urlsplitPy url with
  | error e =>
    have := urlsplitPy_ok h1 h2 h3
    rw [hs] at this
    exact absurd this (by simp [Except.isOk, Except.toBool])
  | ok r =>
    dsimp only
    split <;> rfl

/-- C2, amended: path resolution never raises for an all-ASCII URL
containing no square bracket, and an empty parsed netloc is replaced by
the literal host `unknown`.  Outside that fragment `urlparse` can raise:
an unbalanced bracket (e.g. `http://[`) raises
`ValueError("Invalid IPv6 URL")`, and a non-ASCII netloc whose NFKC
normalization introduces one of `/?#@:` (e.g. `http://℀`, since NFKC
maps `℀` to `a/c`) raises `ValueError` in `_checknetloc`; both propagate
out of `_get_file_path`. -/
theorem get_file_path_total (url : List Char) (config : ClipperConfig)
    (h1 : '[' ∉ url) (h2 : ']' ∉ url) (h3 : ∀ c ∈ url, c.toNat < 0x80) :
    (get_file_path url config).isOk = true ∧
    (∀ parts, urlparsePy url = .ok parts → parts.netloc = [] →
      clipDomain parts.netloc = "unknown".data) := by
  constructor
  · unfold get_file_path
    cases hp : urlparsePy url with
    | error e =>
      have := urlparsePy_ok h1 h2 h3
      rw [hp] at this
      exact absurd this (by simp [Except.isOk, Except.toBool])
    | ok parts =>
      dsimp only
      by_cases hc : config.create_subdirs = true
      · rw [if_pos hc]; rfl
      · rw [if_neg hc]; rfl
  · intro parts _ hn
    rw [hn]
    decide

/-- C2, counterexample to the claim as stated: path resolution does
raise on malformed URLs.  On `http://[` CPython `urlparse` raises
`ValueError("Invalid IPv6 URL")` (unbalanced bracket), and on the
bracket-free `http://℀` it raises `ValueError` from `_checknetloc`
(NFKC maps `℀` to `a/c`); in both cases `_get_file_path` propagates the
exception instead of degrading to host `unknown`. -/
theorem get_file_path_raises_counterexample :
    (get_file_path "http://[".data demoConfig).isOk = false ∧
    (get_file_path "http://℀".data demoConfig).isOk = false := by
  exact ⟨by decide, by decide⟩

/-- witness for `get_file_path_total`: the bracket-free all-ASCII URL
`https://example.com/a` resolves successfully. -/
theorem get_file_path_total_witness :
    (get_file_path "https://example.com/a".data demoConfig).isOk = true :=
  (get_file_path_total "https://example.com/a".data demoConfig
    (by decide) (by decide) (by decide)).1

/-- C3: for every URL that parses, the host is the netloc with a leading
`www.` stripped (`unknown` when the netloc is empty); when the trimmed
URL path is non-empty the filename is the sanitized slash-to-hyphen path
with `.md` appended if not already present, and `index.md` otherwise;
with `create_subdirs = true` the file goes under `<clips_root>/<host>`
(and that directory is created), with `create_subdirs = false` it goes
directly in the clips root as `<host>_<filename>` and no directory is
created. -/
theorem get_file_path_layout (url : List Char) (config : ClipperConfig)
    (parts : SplitResult) (h : urlparsePy url = .ok parts) :
    (parts.netloc = [] → clipDomain parts.netloc = "unknown".data) ∧
    ("www.".data <+: parts.netloc → parts.netloc ≠ [] →
      clipDomain parts.netloc = parts.netloc.drop 4) ∧
    (¬ ("www.".data <+: parts.netloc) → parts.netloc ≠ [] →
      clipDomain parts.netloc = parts.netloc) ∧
    (stripWhile (fun c => decide (c = '/')) parts.path = [] →
      clipFilename parts.path = "index.md".data) ∧
    (∀ t, t = stripWhile (fun c => decide (c = '/')) parts.path → t ≠ [] →
      clipFilename parts.path =
        (if ".md".data <:+ sanitize_filename (t.map fun c => if c = '/' then '-' else c)
         then sanitize_filename (t.map fun c => if c = '/' then '-' else c)
         else sanitize_filename (t.map fun c => if c = '/' then '-' else c) ++ ".md".data)) ∧
    (config.create_subdirs = true →
      get_file_path url config =
        .ok (config.clips_directory ++ [clipDomain parts.netloc, clipFilename parts.path],
             [config.clips_directory ++ [clipDomain parts.netloc]])) ∧
    (config.create_subdirs = false →
      get_file_path url config =
        .ok (config.clips_directory ++
              [clipDomain parts.netloc ++ '_' :: clipFilename parts.path], [])) := by
  refine ⟨?_, ?_, ?_, ?_, ?_, ?_, ?_⟩
  · intro hn
    rw [clipDomain, hn]
    decide
  · intro hp hne
    unfold clipDomain
    dsimp only
    rw [if_neg hne, if_pos hp]
  · intro hp hne
    unfold clipDomain
    dsimp only
    rw [if_neg hne, if_neg hp]
  · intro ht
    unfold clipFilename
    rw [ht]
    simp
  · intro t ht hne
    unfold clipFilename
    rw [← ht]
    dsimp only
    rw [if_pos hne]
  · intro hc
    unfold get_file_path
    rw [h]
    dsimp only
    rw [if_pos hc]
  · intro hc
    unfold get_file_path
    rw [h]
    dsimp only
    rw [if_neg (by rw [hc]; exact Bool.false_ne_true)]

/-- witness for `get_file_path_layout`: `https://www.example.com/docs/guide`
parses, the `www.` is stripped, and the file lands at
`clips/example.com/docs-guide.md` with the `example.com` directory
created; under the flat configuration it lands at
`clips/example.com_docs-guide.md` with no directory created. -/
theorem get_file_path_layout_witness :
    get_file_path "https://www.example.com/docs/guide".data demoConfig =
      .ok (["clips".data, "example.com".data, "docs-guide.md".data],
           [["clips".data, "example.com".data]]) ∧
    get_file_path "https://www.example.com/docs/guide".data demoFlatConfig =
      .ok (["clips".data, "example.com_docs-guide.md".data], []) := by
  have h : urlparsePy "https://www.example.com/docs/guide".data =
      .ok ⟨"https".data, "www.example.com".data, "/docs/guide".data, [], []⟩ := rfl
  constructor
  · rw [(get_file_path_layout _ demoConfig _ h).2.2.2.2.2.1 rfl]
    rfl
  · rw [(get_file_path_layout _ demoFlatConfig _ h).2.2.2.2.2.2 rfl]
    rfl

/-! ## Image extension derivation (claim C8) -/

theorem not_isalnumStr (e : List Char) :
    (!pyIsalnumStr e) = (decide (e = []) || e.any fun c => !pyIsAlnum c) := by
  unfold pyIsalnumStr
  rw [Bool.not_and]
  congr 1
  · cases e <;> simp
  · induction e with
    | nil => rfl
    | cons a as ih => simp [List.all_cons, List.any_cons, Bool.not_and, ih]

/-- C8, amended: the saved extension is derived from the final
`/`-segment of the resolved URL's path and defaults to `.png` exactly
when that segment contains no `.`, or the extracted extension (dot
included) exceeds 5 characters, or it is empty after the dot (Python
`''.isalnum()` is false), or it contains a non-alphanumeric character;
in all other cases the extracted extension is kept. -/
theorem download_image_ext_spec (p : List Char) :
    download_image_ext p =
      (if amendedExtDefaults p = true then ".png".data else extractedExt p) := by
  unfold download_image_ext amendedExtDefaults extractedExt
  dsimp only
  generalize (splitOnChar '/' p).getLastD "image".data = fn
  generalize hext : (splitOnChar '.' fn).getLastD [] = e
  by_cases hdot : ('.' ∈ fn)
  · have h1 : decide ('.' ∉ fn) = false := decide_eq_false (not_not_intro hdot)
    rw [h1]
    have hcond : (decide (5 < ('.' :: e).length) || !pyIsalnumStr (('.' :: e).drop 1)) =
        (decide (5 < ('.' :: e).length) || (decide (e = []) || e.any fun c => !pyIsAlnum c)) := by
      rw [show ('.' :: e).drop 1 = e from rfl, not_isalnumStr]
    rw [hcond]
    simp [Bool.or_assoc]
  · have h1 : decide ('.' ∉ fn) = true := decide_eq_true hdot
    rw [h1]
    simp

/-- C8, counterexample to the claim as stated: for the resolved path
`/foo.` the final segment contains a `.` and its extracted extension is
empty, which triggers none of the claim's three conditions (an empty
extension is not longer than 5 characters and contains no
non-alphanumeric character), yet the code defaults to `.png` because
Python `''.isalnum()` is false. -/
theorem download_image_ext_claim_counterexample :
    ¬ (download_image_ext "/foo.".data =
        (if claimExtDefaults "/foo.".data = true then ".png".data
         else extractedExt "/foo.".data)) := by decide

/-- witness for `download_image_ext_spec`: on `/a/b/pic.jpg` the amended
condition does not trigger and the kept extension is `.jpg`; on
`/a/b/p.jpeg2` the dotted extension has 6 characters and the default
`.png` is used. -/
theorem download_image_ext_spec_witness :
    download_image_ext "/a/b/pic.jpg".data = ".jpg".data ∧
    download_image_ext "/a/b/p.jpeg2".data = ".png".data :=
  ⟨(download_image_ext_spec "/a/b/pic.jpg".data).trans (by decide),
   (download_image_ext_spec "/a/b/p.jpeg2".data).trans (by decide)⟩

/-! ## HTML image processing (claim C5) -/

theorem process_html_images_eq (fetch : List Char → Option (List Char))
    (doc : List HNode) :
    process_html_images fetch doc =
      (doc.map (claimRewriteImg fetch), doc.countP (imgFetchSuccess fetch),
       doc.filterMap imgFetchAttempt) := by
  induction doc with
  | nil => rfl
  | cons n ns ih =>
    rw [process_html_images.eq_def]
    dsimp only
    cases n with
    | other t =>
      rw [ih]
      simp [claimRewriteImg, imgFetchSuccess, imgFetchAttempt, List.countP_cons,
        List.filterMap_cons]
    | img osrc =>
      cases osrc with
      | none =>
        rw [ih]
        simp [claimRewriteImg, imgFetchSuccess, imgFetchAttempt, List.countP_cons,
          List.filterMap_cons]
      | some src =>
        dsimp only
        by_cases h0 : src = []
        · rw [if_pos h0, ih]
          simp [h0, claimRewriteImg, imgFetchSuccess, imgFetchAttempt,
            List.countP_cons, List.filterMap_cons]
        · rw [if_neg h0]
          by_cases hd : "data:".data <+: src
          · rw [if_pos hd, ih]
            simp [h0, hd, claimRewriteImg, imgFetchSuccess, imgFetchAttempt,
              List.countP_cons, List.filterMap_cons]
          · rw [if_neg hd]
            cases hf : fetch src with
            | some name =>
              rw [ih]
              simp [h0, hd, hf, claimRewriteImg, imgFetchSuccess, imgFetchAttempt,
                List.countP_cons, List.filterMap_cons]
            | none =>
              rw [ih]
              simp [h0, hd, hf, claimRewriteImg, imgFetchSuccess, imgFetchAttempt,
                List.countP_cons, List.filterMap_cons]

/-- C5: in `process_html_images` every node is rewritten independently —
a `data:` source (or an absent or empty one) is passed through unmodified,
a successful download rewrites the source to `./images/<name>`, a failed
download leaves the element unchanged; the returned count equals exactly
the number of images whose download was attempted and succeeded; the
attempted-download list never contains a `data:` source (they are never
fetched); and when every download fails the document — in particular all
its non-image content — is returned unchanged with count 0. -/
theorem process_html_images_claim (fetch : List Char → Option (List Char))
    (doc : List HNode) :
    (process_html_images fetch doc).1 = doc.map (claimRewriteImg fetch) ∧
    (process_html_images fetch doc).2.1 = doc.countP (imgFetchSuccess fetch) ∧
    (process_html_images fetch doc).2.2 = doc.filterMap imgFetchAttempt ∧
    (∀ src ∈ (process_html_images fetch doc).2.2, ¬ ("data:".data <+: src)) ∧
    ((∀ src, fetch src = none) →
      (process_html_images fetch doc).1 = doc ∧
      (process_html_images fetch doc).2.1 = 0) := by
  have he := process_html_images_eq fetch doc
  refine ⟨by rw [he], by rw [he], by rw [he], ?_, ?_⟩
  · intro src hsrc
    rw [he] at hsrc
    rcases List.mem_filterMap.mp hsrc with ⟨n, _, hn⟩
    unfold imgFetchAttempt at hn
    cases n with
    | other t => simp at hn
    | img o =>
      cases o with
      | none => simp at hn
      | some s =>
        dsimp only at hn
        by_cases hc : s ≠ [] ∧ ¬ ("data:".data <+: s)
        · rw [if_pos hc, Option.some_inj] at hn
          exact hn ▸ hc.2
        · rw [if_neg hc] at hn
          simp at hn
  · intro hf
    constructor
    · rw [he]
      apply map_id_of
      intro n _
      unfold claimRewriteImg
      cases n with
      | other t => rfl
      | img o =>
        cases o with
        | none => rfl
        | some s => simp [hf s]
    · rw [he]
      rw [List.countP_eq_zero]
      intro n _
      unfold imgFetchSuccess
      cases n with
      | other t => simp
      | img o =>
        cases o with
        | none => simp
        | some s => simp [hf s]

/-- witness for `process_html_images_claim`: with a fetch that always
fails, a document holding text, a remote image and a `data:` image is
returned unchanged with a count of 0. -/
theorem process_html_images_claim_witness :
    (process_html_images (fun _ => none)
        [HNode.other "x".data, HNode.img (some "http://a/b.png".data),
         HNode.img (some "data:xyz".data)]).1 =
      [HNode.other "x".data, HNode.img (some "http://a/b.png".data),
       HNode.img (some "data:xyz".data)] ∧
    (process_html_images (fun _ => none)
        [HNode.other "x".data, HNode.img (some "http://a/b.png".data),
         HNode.img (some "data:xyz".data)]).2.1 = 0 :=
  (process_html_images_claim (fun _ => none)
    [HNode.other "x".data, HNode.img (some "http://a/b.png".data),
     HNode.img (some "data:xyz".data)]).2.2.2.2 (fun _ => rfl)

/-! ## Clip record formatting and append-only persistence (claim C6) -/

theorem splitNl_ne_nil (l : List Char) : splitNl l ≠ [] := by
  cases l with
  | nil => simp [splitNl]
  | cons c cs =>
    rw [splitNl]
    by_cases hc : c = '\n'
    · simp [hc]
    · rw [if_neg hc]
      cases hs : splitNl cs with
      | nil => simp
      | cons x xs => simp

theorem splitNl_append_newline (a b : List Char) :
    splitNl (a ++ '\n' :: b) = splitNl a ++ splitNl b := by
  induction a with
  | nil => simp [splitNl]
  | cons c cs ih =>
    by_cases hc : c = '\n'
    · subst hc
      rw [List.cons_append, splitNl, if_pos rfl, splitNl, if_pos rfl, ih]
      rfl
    · rw [List.cons_append, splitNl, if_neg hc, ih, splitNl, if_neg hc]
      cases hs : splitNl cs with
      | nil => exact absurd hs (splitNl_ne_nil cs)
      | cons x xs => simp

theorem joinSep_cons_cons (sep : Char) (a b : List Char) (ls : List (List Char)) :
    joinSep sep (a :: b :: ls) = a ++ sep :: joinSep sep (b :: ls) := rfl

theorem splitNl_joinSep (L : List (List Char)) (hL : L ≠ []) :
    splitNl (joinSep '\n' L) = L.flatMap splitNl := by
  induction L with
  | nil => exact absurd rfl hL
  | cons x xs ih =>
    cases xs with
    | nil => simp [joinSep]
    | cons y ys =>
      rw [joinSep_cons_cons, splitNl_append_newline, ih (List.cons_ne_nil y ys)]
      simp [List.flatMap_cons]

theorem joinSep_append_nil {L : List (List Char)} (h : L ≠ []) :
    joinSep '\n' (L ++ [[]]) = joinSep '\n' L ++ ['\n'] := by
  induction L with
  | nil => exact absurd rfl h
  | cons x xs ih =>
    cases xs with
    | nil => rfl
    | cons y ys =>
      have ih2 := ih (List.cons_ne_nil y ys)
      rw [List.cons_append] at ih2
      rw [List.cons_append, List.cons_append, joinSep_cons_cons, ih2,
        joinSep_cons_cons]
      simp

theorem infix_append_right {x A B : List Char} (h : x <:+: A) : x <:+: A ++ B := by
  rcases h with ⟨s, t, hst⟩
  exact ⟨s, t ++ B, by rw [← hst]; simp [List.append_assoc]⟩

theorem infix_append_left {x A B : List Char} (h : x <:+: B) : x <:+: A ++ B := by
  rcases h with ⟨s, t, hst⟩
  exact ⟨A ++ s, t, by rw [← hst]; simp [List.append_assoc]⟩

theorem infix_joinSep {x : List Char} {L : List (List Char)} (h : x ∈ L) :
    x <:+: joinSep '\n' L := by
  induction L with
  | nil => simp at h
  | cons y ys ih =>
    rcases List.mem_cons.mp h with rfl | h
    · cases ys with
      | nil => exact List.infix_rfl
      | cons z zs =>
        rw [joinSep_cons_cons]
        exact ⟨[], '\n' :: joinSep '\n' (z :: zs), by simp⟩
    · cases ys with
      | nil => simp at h
      | cons z zs =>
        rcases ih h with ⟨s, t, hst⟩
        rw [joinSep_cons_cons]
        exact ⟨y ++ '\n' :: s, t, by rw [← hst]; simp [List.append_assoc]⟩

theorem shape_helper (a l2 l3 : List Char) (T G tail : List (List Char)) :
    ∃ mid, ([a, l2, l3] ++ T ++ G ++ tail) = a :: (mid ++ tail) :=
  ⟨l2 :: l3 :: (T ++ G), by simp [List.append_assoc]⟩

theorem format_clip_lines_shape (content url : List Char)
    (title tags : Option (List Char)) (config : ClipperConfig) (now : List Char) :
    ∃ mid, format_clip_lines content url title tags config now =
      "---".data :: (mid ++ [[], pyStrip content, [], "---".data, []]) := by
  unfold format_clip_lines
  dsimp only
  exact shape_helper _ _ _ _ _ _

theorem countP_sep_block (mid : List (List Char)) (body : List Char) :
    2 ≤ (((("---".data : List Char) ::
        (mid ++ [[], body, [], "---".data])).flatMap splitNl).countP
          fun l => decide (l = "---".data)) := by
  rw [List.flatMap_cons, List.countP_append, List.flatMap_append, List.countP_append]
  have h1 : ((splitNl "---".data).countP fun l => decide (l = "---".data)) = 1 := by decide
  have h2 : 1 ≤ ((([[], body, [], "---".data] : List (List Char)).flatMap
      splitNl).countP fun l => decide (l = "---".data)) := by
    rw [List.flatMap_cons, List.countP_append, List.flatMap_cons, List.countP_append,
      List.flatMap_cons, List.countP_append, List.flatMap_cons, List.countP_append]
    have := h1
    omega
  omega

theorem sepLineCount_two_records (l1 l2 : List (List Char)) (m1 m2 : List (List Char))
    (b1 b2 : List Char)
    (h1 : l1 = "---".data :: (m1 ++ [[], b1, [], "---".data, []]))
    (h2 : l2 = "---".data :: (m2 ++ [[], b2, [], "---".data, []])) :
    4 ≤ sepLineCount (joinSep '\n' l1 ++ joinSep '\n' l2) ∧
    b1 <:+: joinSep '\n' l1 ++ joinSep '\n' l2 ∧
    b2 <:+: joinSep '\n' l1 ++ joinSep '\n' l2 := by
  have hcore1 : l1 = ("---".data :: (m1 ++ [[], b1, [], "---".data])) ++ [[]] := by
    rw [h1]; simp
  have hcore2 : l2 = ("---".data :: (m2 ++ [[], b2, [], "---".data])) ++ [[]] := by
    rw [h2]; simp
  have hj1 : joinSep '\n' l1 =
      joinSep '\n' ("---".data :: (m1 ++ [[], b1, [], "---".data])) ++ ['\n'] := by
    rw [hcore1, joinSep_append_nil (by simp)]
  have hj2 : joinSep '\n' l2 =
      joinSep '\n' ("---".data :: (m2 ++ [[], b2, [], "---".data])) ++ ['\n'] := by
    rw [hcore2, joinSep_append_nil (by simp)]
  refine ⟨?_, ?_, ?_⟩
  · rw [hj1, hj2]
    rw [List.append_assoc, show (['\n'] : List Char) ++
        (joinSep '\n' ("---".data :: (m2 ++ [[], b2, [], "---".data])) ++ ['\n']) =
        '\n' :: (joinSep '\n' ("---".data :: (m2 ++ [[], b2, [], "---".data])) ++ ['\n'])
      from rfl]
    unfold sepLineCount
    rw [splitNl_append_newline, List.countP_append]
    have hc1 := countP_sep_block m1 b1
    have hc2 := countP_sep_block m2 b2
    rw [splitNl_joinSep _ (by simp)]
    have he : splitNl (joinSep '\n' ("---".data :: (m2 ++ [[], b2, [], "---".data])) ++
        ['\n']) = splitNl (joinSep '\n' ("---".data :: (m2 ++ [[], b2, [], "---".data]))) ++
        [[]] := by
      rw [show (['\n'] : List Char) = '\n' :: [] from rfl, splitNl_append_newline]
      rfl
    rw [he, List.countP_append, splitNl_joinSep _ (by simp)]
    omega
  · apply infix_append_right
    rw [h1]
    exact infix_joinSep (by simp)
  · apply infix_append_left
    rw [h2]
    exact infix_joinSep (by simp)

theorem save_clip_eq {content url : List Char} {title tags : Option (List Char)}
    {config : ClipperConfig} {now : List Char} {fs : FileStore}
    {fp : List (List Char)} {dirs : List (List (List Char))}
    (h : get_file_path url config = .ok (fp, dirs)) :
    save_clip content url title tags config now fs =
      .ok (fp, fun p => if p = fp then
            fs p ++ format_clip content url title tags config now
          else fs p) := by
  unfold save_clip
  rw [h]

/-- C6: `save_clip` appends (never overwrites) the formatted record — a
leading `---` separator line, a `## Clip:` heading that falls back to
`Untitled` when no title is given, a `- **URL**:` line, the
config-gated timestamp line, the optional `#`-prefixed tag line, a blank
line, the trimmed body, a blank line and a trailing `---` separator
line — to the URL-determined file; two clips of the same URL under the
same configuration land in the same single file, other files are
untouched, and (starting from no file) the file then contains both
trimmed bodies and at least 4 separator lines. -/
theorem save_clip_append_claim
    (c1 c2 url : List Char) (t1 t2 tg1 tg2 : Option (List Char))
    (config : ClipperConfig) (now1 now2 : List Char) (fs0 : FileStore)
    (fp : List (List Char)) (dirs : List (List (List Char)))
    (h : get_file_path url config = .ok (fp, dirs)) :
    ∃ fs1 fs2,
      save_clip c1 url t1 tg1 config now1 fs0 = .ok (fp, fs1) ∧
      save_clip c2 url t2 tg2 config now2 fs1 = .ok (fp, fs2) ∧
      fs1 fp = fs0 fp ++ format_clip c1 url t1 tg1 config now1 ∧
      fs2 fp = fs0 fp ++ format_clip c1 url t1 tg1 config now1
                      ++ format_clip c2 url t2 tg2 config now2 ∧
      (∀ q, q ≠ fp → fs2 q = fs0 q) ∧
      (t1 = none →
        "## Clip: Untitled".data ∈ format_clip_lines c1 url t1 tg1 config now1) ∧
      (fs0 fp = [] →
        pyStrip c1 <:+: fs2 fp ∧ pyStrip c2 <:+: fs2 fp ∧
        4 ≤ sepLineCount (fs2 fp)) := by
  refine ⟨_, _, save_clip_eq h, save_clip_eq h, if_pos rfl, ?_, ?_, ?_, ?_⟩
  · rw [if_pos rfl, if_pos rfl, List.append_assoc]
  · intro q hq
    rw [if_neg hq, if_neg hq]
  · intro ht
    subst ht
    unfold format_clip_lines
    simp
  · intro h0
    rw [if_pos rfl, if_pos rfl, h0, List.nil_append]
    rcases format_clip_lines_shape c1 url t1 tg1 config now1 with ⟨m1, hm1⟩
    rcases format_clip_lines_shape c2 url t2 tg2 config now2 with ⟨m2, hm2⟩
    have := sepLineCount_two_records _ _ m1 m2 (pyStrip c1) (pyStrip c2) hm1 hm2
    unfold format_clip
    exact ⟨this.2.1, this.2.2, this.1⟩

set_option maxRecDepth 4000 in
/-- witness for `save_clip_append_claim`: two concrete clips of
`https://example.com/a` (the second untitled and tagged
`test, example`) append into the single file
`clips/example.com/a.md`; the resulting file text is computed and
contains `## Clip: Untitled`, `#test #example`, both bodies and four
separator lines. -/
theorem save_clip_append_claim_witness :
    ∃ fs1 fs2,
      save_clip "body one".data "https://example.com/a".data
          (some "T1".data) none demoConfig "2024-01-02 03:04:05".data
          (fun _ => []) = .ok (["clips".data, "example.com".data, "a.md".data], fs1) ∧
      save_clip "body two".data "https://example.com/a".data
          none (some "test, example".data) demoConfig "2024-01-02 03:04:06".data
          fs1 = .ok (["clips".data, "example.com".data, "a.md".data], fs2) ∧
      fs2 ["clips".data, "example.com".data, "a.md".data] =
        ("---\n## Clip: T1\n- **URL**: https://example.com/a\n" ++
         "- **Captured**: 2024-01-02 03:04:05\n\nbody one\n\n---\n" ++
         "---\n## Clip: Untitled\n- **URL**: https://example.com/a\n" ++
         "- **Captured**: 2024-01-02 03:04:06\n- **Tags**: #test #example\n\n" ++
         "body two\n\n---\n").data ∧
      4 ≤ sepLineCount (fs2 ["clips".data, "example.com".data, "a.md".data]) := by
  have h : get_file_path "https://example.com/a".data demoConfig =
      .ok (["clips".data, "example.com".data, "a.md".data],
           [["clips".data, "example.com".data]]) := rfl
  rcases save_clip_append_claim "body one".data "body two".data
      "https://example.com/a".data (some "T1".data) none none
      (some "test, example".data) demoConfig "2024-01-02 03:04:05".data
      "2024-01-02 03:04:06".data (fun _ => []) _ _ h with
    ⟨fs1, fs2, hs1, hs2, _, hfull, _, _, hrest⟩
  refine ⟨fs1, fs2, hs1, hs2, ?_, (hrest rfl).2.2⟩
  rw [hfull]
  rfl

/-! ## clip() orchestration (claims C4, C7, C9) -/

theorem clipSave_fetches (env : ClipEnv) (tags : Option (List Char))
    (config : ClipperConfig) (fs : FileStore) (content : List Char)
    (bc : BrowserContext) (n : Nat) :
    (clipSave env tags config fs content bc n).ctxFetches = n := by
  unfold clipSave
  cases save_clip content bc.url bc.title tags config env.now fs <;> rfl

theorem clipSave_saves (env : ClipEnv) (tags : Option (List Char))
    (config : ClipperConfig) (fs : FileStore) (content : List Char)
    (bc : BrowserContext) (n : Nat) :
    (clipSave env tags config fs content bc n).saves =
      [⟨content, bc.url, bc.title, tags⟩] := by
  unfold clipSave
  cases save_clip content bc.url bc.title tags config env.now fs <;> rfl

theorem clipSave_result_ne (env : ClipEnv) (tags : Option (List Char))
    (config : ClipperConfig) (fs : FileStore) (content : List Char)
    (bc : BrowserContext) (n : Nat) :
    (clipSave env tags config fs content bc n).result ≠
      .error .noClipboardContent := by
  unfold clipSave
  cases save_clip content bc.url bc.title tags config env.now fs <;> simp

theorem clipSave_result_ne_read (env : ClipEnv) (tags : Option (List Char))
    (config : ClipperConfig) (fs : FileStore) (content : List Char)
    (bc : BrowserContext) (n : Nat) :
    (clipSave env tags config fs content bc n).result ≠
      .error .clipboardReadError := by
  unfold clipSave
  cases save_clip content bc.url bc.title tags config env.now fs <;> simp

theorem clipFinish_empty (env : ClipEnv) (tags : Option (List Char))
    (config : ClipperConfig) (fs : FileStore) (content : List Char)
    (ctx : Option BrowserContext) (n : Nat) (h : pyStrip content = []) :
    clipFinish env tags config fs content ctx n =
      ⟨.error .noClipboardContent, n, [], fs⟩ := by
  unfold clipFinish
  rw [if_pos h]

theorem clipFinish_fetches (env : ClipEnv) (tags : Option (List Char))
    (config : ClipperConfig) (fs : FileStore) (content : List Char)
    (ctx : Option BrowserContext) (n : Nat) :
    (clipFinish env tags config fs content ctx n).ctxFetches =
      if pyStrip content = [] then n
      else match ctx with
        | some _ => n
        | none => n + 1 := by
  unfold clipFinish
  by_cases h : pyStrip content = []
  · rw [if_pos h, if_pos h]
  · rw [if_neg h, if_neg h]
    cases ctx with
    | some c =>
      dsimp only
      exact clipSave_fetches env tags config fs content c n
    | none =>
      cases hb : env.browser with
      | ok c =>
        dsimp only
        exact clipSave_fetches env tags config fs content c (n + 1)
      | error u =>
        dsimp only
        exact clipSave_fetches env tags config fs content ⟨"unknown".data, none⟩ (n + 1)

theorem clipFinish_noContent_fetches (env : ClipEnv) (tags : Option (List Char))
    (config : ClipperConfig) (fs : FileStore) (content : List Char)
    (ctx : Option BrowserContext) (n : Nat)
    (h : (clipFinish env tags config fs content ctx n).result =
      .error .noClipboardContent) :
    (clipFinish env tags config fs content ctx n).ctxFetches = n := by
  by_cases hs : pyStrip content = []
  · rw [clipFinish_empty env tags config fs content ctx n hs]
  · exfalso
    unfold clipFinish at h
    rw [if_neg hs] at h
    cases ctx with
    | some c =>
      dsimp only at h
      exact clipSave_result_ne env tags config fs content c n h
    | none =>
      cases hb : env.browser with
      | ok c =>
        rw [hb] at h
        dsimp only at h
        exact clipSave_result_ne env tags config fs content c (n + 1) h
      | error u =>
        rw [hb] at h
        dsimp only at h
        exact clipSave_result_ne env tags config fs content
          ⟨"unknown".data, none⟩ (n + 1) h

theorem clipFinish_result_ne_read (env : ClipEnv) (tags : Option (List Char))
    (config : ClipperConfig) (fs : FileStore) (content : List Char)
    (ctx : Option BrowserContext) (n : Nat) :
    (clipFinish env tags config fs content ctx n).result ≠
      .error .clipboardReadError := by
  unfold clipFinish
  by_cases hs : pyStrip content = []
  · rw [if_pos hs]
    simp
  · rw [if_neg hs]
    cases ctx with
    | some c =>
      dsimp only
      exact clipSave_result_ne_read env tags config fs content c n
    | none =>
      cases hb : env.browser with
      | ok c =>
        dsimp only
        exact clipSave_result_ne_read env tags config fs content c (n + 1)
      | error u =>
        dsimp only
        exact clipSave_result_ne_read env tags config fs content
          ⟨"unknown".data, none⟩ (n + 1)

theorem clipFinish_go_fetches (env : ClipEnv) (tags : Option (List Char))
    (config : ClipperConfig) (fs : FileStore) (content : List Char) (n : Nat)
    (h : (clipFinish env tags config fs content none n).result ≠
      .error .noClipboardContent) :
    (clipFinish env tags config fs content none n).ctxFetches = n + 1 := by
  by_cases hs : pyStrip content = []
  · exfalso
    apply h
    rw [clipFinish_empty env tags config fs content none n hs]
  · have hfe := clipFinish_fetches env tags config fs content none n
    rw [if_neg hs] at hfe
    exact hfe

theorem clipFinish_saves_none_ctx (env : ClipEnv) (tags : Option (List Char))
    (config : ClipperConfig) (fs : FileStore) (content : List Char) (n : Nat)
    (hb : env.browser = .error ()) :
    ∀ s ∈ (clipFinish env tags config fs content none n).saves,
      s.url = "unknown".data ∧ s.title = none := by
  intro s hs
  unfold clipFinish at hs
  by_cases hst : pyStrip content = []
  · rw [if_pos hst] at hs
    simp at hs
  · rw [if_neg hst, hb] at hs
    dsimp only at hs
    rw [clipSave_saves] at hs
    rcases List.mem_singleton.mp hs with rfl
    exact ⟨rfl, rfl⟩

theorem clipFinish_saves_some_ctx (env : ClipEnv) (tags : Option (List Char))
    (config : ClipperConfig) (fs : FileStore) (content : List Char)
    (bc : BrowserContext) (n : Nat) :
    ∀ s ∈ (clipFinish env tags config fs content (some bc) n).saves,
      s.url = bc.url ∧ s.title = bc.title := by
  intro s hs
  unfold clipFinish at hs
  by_cases hst : pyStrip content = []
  · rw [if_pos hst] at hs
    simp at hs
  · rw [if_neg hst] at hs
    dsimp only at hs
    rw [clipSave_saves] at hs
    rcases List.mem_singleton.mp hs with rfl
    exact ⟨rfl, rfl⟩

theorem clipFinish_fetches_le (env : ClipEnv) (tags : Option (List Char))
    (config : ClipperConfig) (fs : FileStore) (content : List Char)
    (ctx : Option BrowserContext) (n : Nat) :
    (clipFinish env tags config fs content ctx n).ctxFetches ≤ n + 1 := by
  rw [clipFinish_fetches]
  by_cases h : pyStrip content = []
  · rw [if_pos h]
    omega
  · rw [if_neg h]
    cases ctx with
    | some c => dsimp only; omega
    | none => dsimp only; omega

theorem clipTextPath_eq (env : ClipEnv) (tags : Option (List Char))
    (config : ClipperConfig) (fs : FileStore) (n : Nat) :
    clipTextPath env tags config fs n =
      match env.paste with
      | .error _ => ⟨.error .clipboardReadError, n, [], fs⟩
      | .ok text =>
        match env.clipboard_image with
        | some name =>
          clipFinish env tags config fs
            (if pyStrip text ≠ [] then
              pyStrip text ++ '\n' :: '\n' :: markdown_image_link name
             else markdown_image_link name) none n
        | none => clipFinish env tags config fs text none n := rfl

theorem clipTextPath_fetches_le (env : ClipEnv) (tags : Option (List Char))
    (config : ClipperConfig) (fs : FileStore) (n : Nat) :
    (clipTextPath env tags config fs n).ctxFetches ≤ n + 1 := by
  rw [clipTextPath_eq]
  cases hp : env.paste with
  | error e => dsimp only; omega
  | ok text =>
    cases hi : env.clipboard_image with
    | some name =>
      dsimp only
      exact clipFinish_fetches_le env tags config fs _ none n
    | none =>
      dsimp only
      exact clipFinish_fetches_le env tags config fs _ none n

theorem clipTextPath_noContent_fetches (env : ClipEnv) (tags : Option (List Char))
    (config : ClipperConfig) (fs : FileStore) (n : Nat)
    (h : (clipTextPath env tags config fs n).result = .error .noClipboardContent) :
    (clipTextPath env tags config fs n).ctxFetches = n := by
  cases hp : env.paste with
  | error e =>
    rw [clipTextPath_eq, hp] at h
    simp at h
  | ok text =>
    rw [clipTextPath_eq, hp] at h
    rw [clipTextPath_eq, hp]
    cases hi : env.clipboard_image with
    | some name =>
      rw [hi] at h
      exact clipFinish_noContent_fetches _ _ _ _ _ _ _ h
    | none =>
      rw [hi] at h
      exact clipFinish_noContent_fetches _ _ _ _ _ _ _ h

theorem clipTextPath_readError_fetches (env : ClipEnv) (tags : Option (List Char))
    (config : ClipperConfig) (fs : FileStore) (n : Nat)
    (h : (clipTextPath env tags config fs n).result = .error .clipboardReadError) :
    (clipTextPath env tags config fs n).ctxFetches = n := by
  cases hp : env.paste with
  | error e =>
    rw [clipTextPath_eq, hp]
  | ok text =>
    exfalso
    rw [clipTextPath_eq, hp] at h
    cases hi : env.clipboard_image with
    | some name =>
      rw [hi] at h
      exact clipFinish_result_ne_read _ _ _ _ _ _ _ h
    | none =>
      rw [hi] at h
      exact clipFinish_result_ne_read _ _ _ _ _ _ _ h

theorem clipTextPath_abort_fetches (env : ClipEnv) (tags : Option (List Char))
    (config : ClipperConfig) (fs : FileStore) (n : Nat)
    (h : (clipTextPath env tags config fs n).result = .error .noClipboardContent ∨
         (clipTextPath env tags config fs n).result = .error .clipboardReadError) :
    (clipTextPath env tags config fs n).ctxFetches = n := by
  rcases h with h | h
  · exact clipTextPath_noContent_fetches env tags config fs n h
  · exact clipTextPath_readError_fetches env tags config fs n h

theorem clipTextPath_go_fetches (env : ClipEnv) (tags : Option (List Char))
    (config : ClipperConfig) (fs : FileStore) (n : Nat)
    (h : ¬ ((clipTextPath env tags config fs n).result = .error .noClipboardContent ∨
            (clipTextPath env tags config fs n).result = .error .clipboardReadError)) :
    (clipTextPath env tags config fs n).ctxFetches = n + 1 := by
  cases hp : env.paste with
  | error e =>
    exfalso
    apply h
    right
    rw [clipTextPath_eq, hp]
  | ok text =>
    have hne : (clipTextPath env tags config fs n).result ≠ .error .noClipboardContent :=
      fun hres => h (Or.inl hres)
    rw [clipTextPath_eq, hp] at hne
    rw [clipTextPath_eq, hp]
    cases hi : env.clipboard_image with
    | some name =>
      rw [hi] at hne
      exact clipFinish_go_fetches _ _ _ _ _ _ hne
    | none =>
      rw [hi] at hne
      exact clipFinish_go_fetches _ _ _ _ _ _ hne

theorem clipTextPath_saves_unknown (env : ClipEnv) (tags : Option (List Char))
    (config : ClipperConfig) (fs : FileStore) (n : Nat)
    (hb : env.browser = .error ()) :
    ∀ s ∈ (clipTextPath env tags config fs n).saves,
      s.url = "unknown".data ∧ s.title = none := by
  rw [clipTextPath_eq]
  cases hp : env.paste with
  | error e =>
    intro s hs
    simp at hs
  | ok text =>
    cases hi : env.clipboard_image with
    | some name =>
      dsimp only
      exact clipFinish_saves_none_ctx env tags config fs _ n hb
    | none =>
      dsimp only
      exact clipFinish_saves_none_ctx env tags config fs _ n hb

theorem clip_eq_text_of_falsy (env : ClipEnv) (tags : Option (List Char))
    (config : ClipperConfig) (fs0 : FileStore) (hf : truthyHtml env = false) :
    clip env tags config fs0 = clipTextPath env tags config fs0 0 := by
  unfold clip truthyHtml at *
  cases hh : env.html_clipboard with
  | none => rfl
  | some h =>
    rw [hh] at hf
    simp at hf
    subst hf
    simp

theorem clip_eq_html_ok (env : ClipEnv) (tags : Option (List Char))
    (config : ClipperConfig) (fs0 : FileStore) {h : List Char}
    (hh : env.html_clipboard = some h) (hne : h ≠ [])
    {conv : List Char × Nat} (hcv : env.convert h (htmlBase env) = .ok conv) :
    clip env tags config fs0 =
      clipFinish env tags config fs0 conv.1
        (some (match env.browser with
               | .ok c => c
               | .error _ => ⟨"https://example.com".data, none⟩)) 1 := by
  unfold clip
  rw [hh]
  dsimp only
  rw [if_pos hne, hcv]

theorem clip_eq_html_fail (env : ClipEnv) (tags : Option (List Char))
    (config : ClipperConfig) (fs0 : FileStore) {h : List Char}
    (hh : env.html_clipboard = some h) (hne : h ≠ [])
    {e : Unit} (hcv : env.convert h (htmlBase env) = .error e) :
    clip env tags config fs0 = clipTextPath env tags config fs0 1 := by
  unfold clip
  rw [hh]
  dsimp only
  rw [if_pos hne, hcv]

/-- C4: when the clipboard yields no HTML, no non-whitespace text and no
image, `clip()` raises `NoClipboardContentError`, makes no `save_clip`
call, touches no file — and, incidentally, never queried the browser. -/
theorem clip_no_content (env : ClipEnv) (tags : Option (List Char))
    (config : ClipperConfig) (fs0 : FileStore) (t : List Char)
    (hh : env.html_clipboard = none ∨ env.html_clipboard = some [])
    (hp : env.paste = .ok t) (ht : pyStrip t = [])
    (hi : env.clipboard_image = none) :
    clip env tags config fs0 = ⟨.error .noClipboardContent, 0, [], fs0⟩ := by
  have hf : truthyHtml env = false := by
    rcases hh with hh | hh <;> simp [truthyHtml, hh]
  rw [clip_eq_text_of_falsy env tags config fs0 hf]
  unfold clipTextPath
  rw [hp]
  dsimp only
  rw [hi]
  dsimp only
  exact clipFinish_empty env tags config fs0 t none 0 ht

/-- witness for `clip_no_content`: with whitespace-only text, no HTML
and no image on the clipboard, the concrete invocation returns the
no-content failure, performs no save and leaves the (empty) file store
unchanged. -/
theorem clip_no_content_witness :
    clip demoEnvEmpty none demoConfig (fun _ => []) =
      ⟨.error .noClipboardContent, 0, [], fun _ => []⟩ :=
  clip_no_content demoEnvEmpty none demoConfig (fun _ => []) "  ".data
    (Or.inl rfl) rfl (by decide) rfl

/-- C7, amended: when the browser-context query fails, `clip()` recovers;
in the plain-text/image path (and in the fallback after a failed HTML
conversion) it substitutes url `unknown` and title `None`, but in the
HTML path it substitutes url `https://example.com` (not `unknown`) and
title `None`. -/
theorem clip_browser_error_fallback (env : ClipEnv) (tags : Option (List Char))
    (config : ClipperConfig) (fs0 : FileStore) (hb : env.browser = .error ()) :
    (∀ h, env.html_clipboard = some h → h ≠ [] →
      ∀ conv, env.convert h (htmlBase env) = .ok conv →
        ∀ s ∈ (clip env tags config fs0).saves,
          s.url = "https://example.com".data ∧ s.title = none) ∧
    (truthyHtml env = false →
      ∀ s ∈ (clip env tags config fs0).saves,
        s.url = "unknown".data ∧ s.title = none) ∧
    (∀ h, env.html_clipboard = some h → h ≠ [] →
      ∀ e, env.convert h (htmlBase env) = .error e →
        ∀ s ∈ (clip env tags config fs0).saves,
          s.url = "unknown".data ∧ s.title = none) := by
  refine ⟨?_, ?_, ?_⟩
  · intro h hh hne conv hcv s hs
    rw [clip_eq_html_ok env tags config fs0 hh hne hcv, hb] at hs
    exact clipFinish_saves_some_ctx env tags config fs0 conv.1 _ 1 s hs
  · intro hf s hs
    rw [clip_eq_text_of_falsy env tags config fs0 hf] at hs
    exact clipTextPath_saves_unknown env tags config fs0 0 hb s hs
  · intro h hh hne e hcv s hs
    rw [clip_eq_html_fail env tags config fs0 hh hne hcv] at hs
    exact clipTextPath_saves_unknown env tags config fs0 1 hb s hs

/-- C7, counterexample to the claim as stated: in the HTML-capture path
with the browser unreachable, the clip is saved under the fallback url
`https://example.com`, not under `unknown`. -/
theorem clip_browser_fallback_counterexample :
    (clip demoEnvHtmlOk none demoConfig (fun _ => [])).saves =
      [⟨"x".data, "https://example.com".data, none, none⟩] ∧
    (clip demoEnvHtmlOk none demoConfig (fun _ => [])).saves ≠
      [⟨"x".data, "unknown".data, none, none⟩] := by
  constructor
  · rfl
  · decide

/-- witness for `clip_browser_error_fallback`: in the plain-text path of
a concrete invocation with the browser unreachable, the saved record
carries url `unknown` and no title. -/
theorem clip_browser_error_fallback_witness :
    (⟨"x".data, "unknown".data, none, none⟩ : SaveArgs).url = "unknown".data ∧
    (⟨"x".data, "unknown".data, none, none⟩ : SaveArgs).title = none :=
  (clip_browser_error_fallback demoEnvText none demoConfig (fun _ => [])
    rfl).2.1 rfl ⟨"x".data, "unknown".data, none, none⟩ (by decide)

/-- C9, amended: during one `clip()` invocation the browser context is
fetched at most twice; with no truthy clipboard HTML it is fetched zero
times exactly when the invocation aborts before the fetch (with
`NoClipboardContentError` or `ClipboardReadError`) and exactly once
otherwise, i.e. in the plain-text/image path with non-empty content; in
the HTML path with a successful conversion it is fetched exactly once;
and it is fetched twice exactly when the context was fetched for the
HTML path, the conversion then raised (the code resets `browser_context`
to `None`), and the plain-text fallback reaches the second fetch rather
than aborting. -/
theorem clip_context_fetches (env : ClipEnv) (tags : Option (List Char))
    (config : ClipperConfig) (fs0 : FileStore) :
    (clip env tags config fs0).ctxFetches ≤ 2 ∧
    (truthyHtml env = false →
      ((clip env tags config fs0).result = .error .noClipboardContent ∨
       (clip env tags config fs0).result = .error .clipboardReadError) →
      (clip env tags config fs0).ctxFetches = 0) ∧
    (truthyHtml env = false →
      ¬ ((clip env tags config fs0).result = .error .noClipboardContent ∨
         (clip env tags config fs0).result = .error .clipboardReadError) →
      (clip env tags config fs0).ctxFetches = 1) ∧
    (∀ h, env.html_clipboard = some h → h ≠ [] →
      ∀ conv, env.convert h (htmlBase env) = .ok conv →
        (clip env tags config fs0).ctxFetches = 1) ∧
    ((clip env tags config fs0).ctxFetches = 2 ↔
      ((∃ h, env.html_clipboard = some h ∧ h ≠ [] ∧
          ∃ e, env.convert h (htmlBase env) = .error e) ∧
        ¬ ((clip env tags config fs0).result = .error .noClipboardContent ∨
           (clip env tags config fs0).result = .error .clipboardReadError))) := by
  by_cases htr : truthyHtml env = true
  · obtain ⟨h, hh, hne⟩ : ∃ h, env.html_clipboard = some h ∧ h ≠ [] := by
      unfold truthyHtml at htr
      cases hh : env.html_clipboard with
      | none => rw [hh] at htr; simp at htr
      | some h =>
        rw [hh] at htr
        simp at htr
        exact ⟨h, rfl, htr⟩
    cases hcv : env.convert h (htmlBase env) with
    | ok conv =>
      have hcl := clip_eq_html_ok env tags config fs0 hh hne hcv
      have hone : (clip env tags config fs0).ctxFetches = 1 := by
        rw [hcl, clipFinish_fetches]
        split
        · rfl
        · rfl
      refine ⟨by omega, ?_, ?_, ?_, ?_⟩
      · intro hf; rw [htr] at hf; exact fun _ => absurd hf (by simp)
      · intro hf; rw [htr] at hf; exact fun _ => absurd hf (by simp)
      · intro h2 hh2 hne2 conv2 hcv2
        exact hone
      · constructor
        · intro h2
          rw [hone] at h2
          exact absurd h2 (by omega)
        · rintro ⟨⟨h2, hh2, hne2, e2, hcv2⟩, _⟩
          rw [hh] at hh2
          have he : h2 = h := by injection hh2.symm
          subst he
          rw [hcv] at hcv2
          exact absurd hcv2 (by simp)
    | error e =>
      have hcl := clip_eq_html_fail env tags config fs0 hh hne hcv
      have hle := clipTextPath_fetches_le env tags config fs0 1
      refine ⟨by rw [hcl]; omega, ?_, ?_, ?_, ?_⟩
      · intro hf; rw [htr] at hf; exact fun _ => absurd hf (by simp)
      · intro hf; rw [htr] at hf; exact fun _ => absurd hf (by simp)
      · intro h2 hh2 hne2 conv2 hcv2
        rw [hh] at hh2
        have he : h2 = h := by injection hh2.symm
        subst he
        rw [hcv] at hcv2
        exact absurd hcv2 (by simp)
      · rw [hcl]
        constructor
        · intro h2
          by_cases habort :
              (clipTextPath env tags config fs0 1).result = .error .noClipboardContent ∨
              (clipTextPath env tags config fs0 1).result = .error .clipboardReadError
          · rw [clipTextPath_abort_fetches env tags config fs0 1 habort] at h2
            exact absurd h2 (by omega)
          · exact ⟨⟨h, hh, hne, e, hcv⟩, habort⟩
        · rintro ⟨_, habort⟩
          exact clipTextPath_go_fetches env tags config fs0 1 habort
  · have hf : truthyHtml env = false := by
      cases hx : truthyHtml env
      · rfl
      · exact absurd hx htr
    have hcl := clip_eq_text_of_falsy env tags config fs0 hf
    have hle := clipTextPath_fetches_le env tags config fs0 0
    refine ⟨by rw [hcl]; omega, ?_, ?_, ?_, ?_⟩
    · intro _ habort
      rw [hcl] at habort ⊢
      exact clipTextPath_abort_fetches env tags config fs0 0 habort
    · intro _ habort
      rw [hcl] at habort ⊢
      exact clipTextPath_go_fetches env tags config fs0 0 habort
    · intro h hh hne conv hcv
      unfold truthyHtml at hf
      rw [hh] at hf
      simp at hf
      exact absurd hf hne
    · constructor
      · intro h2
        rw [hcl] at h2
        exact absurd h2 (by omega)
      · rintro ⟨⟨h2, hh2, hne2, hcv2⟩, _⟩
        unfold truthyHtml at hf
        rw [hh2] at hf
        simp at hf
        exact absurd hf hne2


/-- C9, counterexample to the claim as stated: clipboard HTML whose
conversion raises makes `clip()` fetch the browser context twice — once
for the HTML base URL, once again after falling back to the plain-text
path (the code resets the already-fetched context to `None`). -/
theorem clip_double_fetch_counterexample :
    (clip demoEnvHtmlFail none demoConfig (fun _ => [])).ctxFetches = 2 := by
  decide

/-- witness for `clip_context_fetches`: the empty-clipboard invocation
aborts with `NoClipboardContentError` before the context fetch, so the
browser is queried zero times. -/
theorem clip_context_fetches_witness :
    (clip demoEnvEmpty none demoConfig (fun _ => [])).ctxFetches = 0 :=
  (clip_context_fetches demoEnvEmpty none demoConfig (fun _ => [])).2.1
    rfl (Or.inl rfl)

end WebClipper
